import Mathlib

/-!
Verification development for the OSM batching tool (Rust sources
`src/lib.rs`, `src/main.rs`, `src/utils.rs`).

The development shallowly embeds the program's data model and operations:

* the identifier / path algebra of `ImportOptions` (`src/lib.rs`) and of the
  RPC adapter `fetch_import_batch` (`src/main.rs`);
* the delta-identifier validators (`DeltaAbc::new` in `src/lib.rs` and the
  inline check in `src/main.rs`);
* the batch-availability oracle `check_batch_file_status` (`src/lib.rs`);
* the batch builder `batch_osm_xml` / `write_batch` / `parse_root_element`
  (`src/lib.rs`) as a state machine over a stream of XML events, with source
  documents represented as well-formed trees whose event stream feeds the
  machine;
* the fetchers `download_file` (`src/utils.rs`), `download_osm_pbf` and
  `download_osc_gz` (`src/lib.rs`) over an abstract file-system state.

Machine integers: all counters in the source are `usize`; batch counts and
indices stay far below 2^64 in any run this development quantifies over, and
the source performs no wrapping arithmetic on them, so they are embedded as
`Nat`.
-/

namespace OsmBatchTool

/-- The closed set of element kinds `node`, `way`, `relation`. -/
inductive Kind where
  | node
  | way
  | relation
deriving DecidableEq, Repr

/-- The tag-name string of a kind, as matched by the Rust
`"node" | "way" | "relation"` match arms. -/
def Kind.name : Kind → String
  | .node => "node"
  | .way => "way"
  | .relation => "relation"

/-- Classifier for the Rust match arm `"node" | "way" | "relation"`:
`some k` exactly when the tag name is one of the three kind names. -/
def kindOfName (s : String) : Option Kind :=
  if s = "node" then some .node
  else if s = "way" then some .way
  else if s = "relation" then some .relation
  else none

/-- Truth of the Rust match arm `"node" | "way" | "relation"`. -/
def isKindName (s : String) : Bool :=
  (kindOfName s).isSome

/-- Classifier for the Rust match arm `"create" | "modify" | "delete"`. -/
def isContainerName (s : String) : Bool :=
  s == "create" || s == "modify" || s == "delete"

/-- Expansion of one character under the attribute-value escaping of
`lib.rs` (the chain `replace("&","&amp;").replace("\x22","&quot;")
.replace("<","&lt;").replace(">","&gt;")`).  The sequential single-character
replacements equal this single per-character expansion: the ampersands
introduced by the later replacements are not revisited because the `&` pass
runs first, and no replacement string contains `\x22`, `<` or `>`. -/
def escAttrChar (c : Char) : List Char :=
  if c = '&' then "&amp;".data
  else if c = '"' then "&quot;".data
  else if c = '<' then "&lt;".data
  else if c = '>' then "&gt;".data
  else [c]

/-- Attribute-value escaping of `lib.rs` (see `escAttrChar`). -/
def escapeAttrValue (v : String) : String :=
  ⟨v.data.flatMap escAttrChar⟩

/-- Expansion of one character under the text escaping of `lib.rs`
(the chain `replace("&","&amp;").replace("<","&lt;").replace(">","&gt;")`),
correct as a per-character map for the same reason as `escAttrChar`. -/
def escTextChar (c : Char) : List Char :=
  if c = '&' then "&amp;".data
  else if c = '<' then "&lt;".data
  else if c = '>' then "&gt;".data
  else [c]

/-- Text-content escaping of `lib.rs` (see `escTextChar`). -/
def escapeText (v : String) : String :=
  ⟨v.data.flatMap escTextChar⟩

/-- Serialisation of an attribute list as the Rust loops do it:
for each attribute, append a space, the key, `=`, and the escaped value in
double quotes, in iteration order. -/
def attrsToString (attrs : List (String × String)) : String :=
  attrs.foldl (fun acc kv => acc ++ " " ++ kv.1 ++ "=\"" ++ escapeAttrValue kv.2 ++ "\"") ""

/-- Decimal digits of `n` (most significant first), with explicit fuel so the
recursion is structural; `decDigitsAux n n` is the full digit list for
`n > 0`. -/
def decDigitsAux : Nat → Nat → List Char
  | 0, _ => []
  | fuel + 1, n => if n = 0 then [] else decDigitsAux fuel (n / 10) ++ [Nat.digitChar (n % 10)]

/-- Decimal representation of a natural number, modelling Rust's `{}`
formatting of `usize`. -/
def natDecimal (n : Nat) : String :=
  if n = 0 then "0" else ⟨decDigitsAux n n⟩

/-- Zero-padding to width 6, modelling Rust's `{:06}` formatting: numbers
with fewer than six digits are left-padded with `0`, longer numbers are
emitted in full. -/
def pad6 (n : Nat) : String :=
  let s := natDecimal n
  if s.length < 6 then (⟨List.replicate (6 - s.length) '0'⟩ : String) ++ s else s

/-- The `OsmFileType` enum of `lib.rs`; the payloads are the validated
identifier strings carried by `FullDate` and `DeltaAbc`. -/
inductive OsmFileType where
  | full (date : String)
  | delta (abc : String)

/-- Replacement of `/` by `_`, modelling `str::replace("/", "_")` in
`DeltaAbc::as_underscore` and `process_delta_import` (a single-character
pattern with a single-character replacement is a per-character map). -/
def abcUnderscore (s : String) : String :=
  ⟨s.data.map (fun c => if c = '/' then '_' else c)⟩

/-- The `ImportOptions` struct of `lib.rs`.  The `base_path` field exists in
the source but is never read by any of its methods. -/
structure ImportOptions where
  osm_file_type : OsmFileType
  base_path : String

/-- Mirror of `ImportOptions::get_import_type`. -/
def ImportOptions.get_import_type (o : ImportOptions) : String :=
  match o.osm_file_type with
  | .full _ => "full"
  | .delta _ => "delta"

/-- Mirror of `ImportOptions::get_import_scope`. -/
def ImportOptions.get_import_scope (o : ImportOptions) : String :=
  match o.osm_file_type with
  | .full date => date
  | .delta abc => abcUnderscore abc

/-- Mirror of `ImportOptions::get_import_dir`:
`format!("./data/{}/{}", type, scope)`. -/
def ImportOptions.get_import_dir (o : ImportOptions) : String :=
  "./data/" ++ o.get_import_type ++ "/" ++ o.get_import_scope

/-- Mirror of `ImportOptions::get_filename_base`. -/
def ImportOptions.get_filename_base (o : ImportOptions) : String :=
  match o.osm_file_type with
  | .full _ => o.get_import_scope ++ ".osm"
  | .delta _ => o.get_import_scope ++ ".osc"

/-- Mirror of `ImportOptions::get_lock_file`. -/
def ImportOptions.get_lock_file (o : ImportOptions) : String :=
  o.get_import_dir ++ "/lock"

/-- Mirror of `ImportOptions::get_batch_file`:
`format!("{}/batches/{}/{}.batch_{:06}.xml", dir, element_type, base, n)`. -/
def ImportOptions.get_batch_file (o : ImportOptions) (element_type : String) (batch_number : Nat) : String :=
  o.get_import_dir ++ "/batches/" ++ element_type ++ "/" ++ o.get_filename_base
    ++ ".batch_" ++ pad6 batch_number ++ ".xml"

/-- Mirror of `ImportOptions::get_batches_complete_file`. -/
def ImportOptions.get_batches_complete_file (o : ImportOptions) (element_type : String) : String :=
  o.get_import_dir ++ "/batches/" ++ element_type ++ "/" ++ o.get_filename_base
    ++ ".batches_complete"

/-- Import directory as computed inline by `fetch_import_batch` in `main.rs`:
`format!("./data/bangladesh/{}/{}", import_type, import_arg_dir)`. -/
def mainImportDir (import_type import_arg_dir : String) : String :=
  "./data/bangladesh/" ++ import_type ++ "/" ++ import_arg_dir

/-- Batch-file path as computed inline by `fetch_import_batch` in `main.rs`. -/
def mainBatchFile (import_dir element_type import_file : String) (batch_number : Nat) : String :=
  import_dir ++ "/batches/" ++ element_type ++ "/" ++ import_file
    ++ ".batch_" ++ pad6 batch_number ++ ".xml"

/-- Batches-complete path as computed inline by `fetch_import_batch` in
`main.rs`. -/
def mainBatchesCompleteFile (import_dir element_type import_file : String) : String :=
  import_dir ++ "/batches/" ++ element_type ++ "/" ++ import_file ++ ".batches_complete"

/-- Language of the `DeltaAbc::new` validation regex
`^[0-9]{3}/[0-9]{3}/[0-9]{3}$`: exactly eleven characters, three ASCII
digits, a slash, three digits, a slash, three digits. -/
def deltaAbcRegexMatches (s : String) : Bool :=
  match s.data with
  | [a1, a2, a3, s1, b1, b2, b3, s2, c1, c2, c3] =>
      a1.isDigit && a2.isDigit && a3.isDigit && s1 == '/' &&
      b1.isDigit && b2.isDigit && b3.isDigit && s2 == '/' &&
      c1.isDigit && c2.isDigit && c3.isDigit
  | _ => false

/-- The `DeltaAbc` newtype of `lib.rs`. -/
structure DeltaAbc where
  abc : String
deriving DecidableEq, Repr

/-- Mirror of `DeltaAbc::new`: accept exactly the strings matched by the
regex, otherwise return the validation error and no value. -/
def DeltaAbc.new (abc : String) : Except String DeltaAbc :=
  if deltaAbcRegexMatches abc then .ok ⟨abc⟩
  else .error ("Invalid ABC format: " ++ abc ++ " (expected AAA/BBB/CCC)")

/-- The inline delta-identifier rejection test of `fetch_import_batch` in
`main.rs`: `abc.matches('/').count() != 2 || !abc.chars().all(|c|
c.is_ascii_digit() || c == '/')`. -/
def mainDeltaArgInvalid (abc : String) : Bool :=
  !(abc.data.count '/' == 2) || !(abc.data.all (fun c => c.isDigit || c == '/'))

/-- Acceptance by the `main.rs` inline delta validator (negation of
`mainDeltaArgInvalid`). -/
def mainDeltaValid (abc : String) : Bool :=
  !mainDeltaArgInvalid abc

/-- Statement of the spec's `DeltaId` shape, written from the spec's words:
`AAA/BBB/CCC` where each slash-separated segment is exactly three decimal
digits. -/
def SpecAbcForm (s : String) : Prop :=
  ∃ a b c : String, s = a ++ "/" ++ b ++ "/" ++ c ∧
    a.length = 3 ∧ b.length = 3 ∧ c.length = 3 ∧
    (a.data ++ b.data ++ c.data).all Char.isDigit = true

/-- The `BatchFileStatus` enum of `lib.rs`. -/
inductive BatchFileStatus where
  | fileReadSuccessfully (content : String)
  | fileReadError (msg : String)
  | fileDoesNotExistYet
  | fileWillNeverExist
deriving DecidableEq, Repr

/-- Abstract file-system probes used by the oracle: an existence test and a
whole-file read (the two probes `Path::exists` and `read_to_string`). -/
structure Fs where
  pathExists : String → Bool
  readToString : String → Except String String

/-- Mirror of `check_batch_file_status` in `lib.rs`: match on the pair of
the existence probe and the read result of the batch file; when the batch
file does not exist, fall back to the completion-marker probe. -/
def check_batch_file_status (fs : Fs) (io : ImportOptions) (element_type : String)
    (batch_number : Nat) : BatchFileStatus :=
  let batch_file_path := io.get_batch_file element_type batch_number
  let batches_complete_file_path := io.get_batches_complete_file element_type
  match fs.pathExists batch_file_path, fs.readToString batch_file_path with
  | true, .ok content => .fileReadSuccessfully content
  | true, .error _ => .fileReadError "Failed to read batch file"
  | false, _ =>
      if fs.pathExists batches_complete_file_path then .fileWillNeverExist
      else .fileDoesNotExistYet

/-- The four-outcome classification written from the spec's words: `ReadOk`
if the batch file exists and reads successfully, `ReadErr` if it exists but
reading fails, `NeverWillBe` if it does not exist but the completion marker
does, `NotYet` in every other case. -/
def oracleOutcomeSpec (fs : Fs) (batchPath completePath : String) : BatchFileStatus :=
  if fs.pathExists batchPath then
    match fs.readToString batchPath with
    | .ok content => .fileReadSuccessfully content
    | .error _ => .fileReadError "Failed to read batch file"
  else if fs.pathExists completePath then .fileWillNeverExist
  else .fileDoesNotExistYet

/-- XML reader events as consumed by the `read_event_into` loop (namespaces
stripped to local names; with `trim_text(true)` whitespace-only text never
arrives). -/
inductive XmlEvent where
  | startE (name : String) (attrs : List (String × String))
  | endE (name : String)
  | emptyE (name : String) (attrs : List (String × String))
  | textE (s : String)
  | cdataE (s : String)
deriving DecidableEq, Repr

/-- Well-formed XML content trees; the event stream of a tree is its
pre-order traversal.  A `Frag` list stands for the children of an element
or the content of the document under its root. -/
inductive Frag where
  | elem (name : String) (attrs : List (String × String)) (children : List Frag)
  | selfClose (name : String) (attrs : List (String × String))
  | txt (s : String)
  | cdataF (s : String)
deriving Repr

mutual

/-- Event stream of one content tree. -/
def eventsF : Frag → List XmlEvent
  | .elem n a cs => XmlEvent.startE n a :: eventsL cs ++ [XmlEvent.endE n]
  | .selfClose n a => [XmlEvent.emptyE n a]
  | .txt s => [XmlEvent.textE s]
  | .cdataF s => [XmlEvent.cdataE s]

/-- Event stream of a list of content trees. -/
def eventsL : List Frag → List XmlEvent
  | [] => []
  | f :: fs => eventsF f ++ eventsL fs

end

/-- Opening tag as built by the machine: `<name` then the attribute loop
then `>`. -/
def startTagStr (n : String) (attrs : List (String × String)) : String :=
  "<" ++ n ++ attrsToString attrs ++ ">"

/-- Closing tag as built by the machine. -/
def endTagStr (n : String) : String :=
  "</" ++ n ++ ">"

/-- Self-closing tag as built by the machine: `<name` then the attribute
loop then `/>`. -/
def selfCloseStr (n : String) (attrs : List (String × String)) : String :=
  "<" ++ n ++ attrsToString attrs ++ "/>"

/-- Opening wrapper emitted for a delta change container:
`format!("<{}>\n", delta_container)`. -/
def containerOpen (c : String) : String :=
  "<" ++ c ++ ">\n"

/-- Closing wrapper emitted for a delta change container:
`format!("\n</{}>", delta_container)`. -/
def containerClose (c : String) : String :=
  "\n</" ++ c ++ ">"

mutual

/-- Serialisation of a content tree exactly as the machine re-emits it while
collecting an element: escaped start tags, recursively serialised children,
closing tags, escaped text, verbatim CDATA. -/
def serializeF : Frag → String
  | .elem n a cs => startTagStr n a ++ serializeL cs ++ endTagStr n
  | .selfClose n a => selfCloseStr n a
  | .txt s => escapeText s
  | .cdataF s => "<![CDATA[" ++ s ++ "]]>"

/-- Serialisation of a list of content trees. -/
def serializeL : List Frag → String
  | [] => ""
  | f :: fs => serializeF f ++ serializeL fs

end

/-- Per-kind store, mirroring the three-key `HashMap`s of `batch_osm_xml`
(which are populated for exactly `node`, `way`, `relation`). -/
structure KindMap (α : Type) where
  node : α
  way : α
  relation : α
deriving DecidableEq, Repr

/-- Lookup in a per-kind store. -/
def KindMap.get {α : Type} (m : KindMap α) : Kind → α
  | .node => m.node
  | .way => m.way
  | .relation => m.relation

/-- Update of a per-kind store. -/
def KindMap.set {α : Type} (m : KindMap α) : Kind → α → KindMap α
  | .node, a => { m with node := a }
  | .way, a => { m with way := a }
  | .relation, a => { m with relation := a }

/-- Constant per-kind store. -/
def KindMap.const {α : Type} (a : α) : KindMap α :=
  ⟨a, a, a⟩

/-- One `write_batch` call: the element kind it was invoked for, the 0-based
batch index, and the element fragments written. -/
structure BatchWrite where
  kind : Kind
  index : Nat
  elements : List String
deriving DecidableEq, Repr

/-- The mutable state of the `batch_osm_xml` parse loop, plus the
chronological log of `write_batch` calls.  The Rust code initialises
`element_type` to the empty string; it is only ever read after having been
set to one of the three kind names (the `End` arm reads it only under
`in_element`, which is set solely by the `Start` arm that also sets
`element_type`), so it is stored here as a `Kind` with an arbitrary initial
value. -/
structure LoopState where
  currentElement : String
  elementType : Kind
  inElement : Bool
  elementDepth : Nat
  deltaContainer : String
  batchCounts : KindMap Nat
  currentBatches : KindMap (List String)
  writes : List BatchWrite
deriving DecidableEq, Repr

/-- Initial loop state of `batch_osm_xml`. -/
def initState : LoopState :=
  ⟨"", .node, false, 0, "", .const 0, .const [], []⟩

/-- Push one completed fragment onto its kind's pending buffer and, when the
buffer has reached `elements_per_batch`, log a `write_batch` call at the
current batch count, bump the count and clear the buffer (the shared tail of
the `End` and `Empty` kind arms). -/
def pushAndMaybeFlush (B : Nat) (k : Kind) (frag : String) (st : LoopState) : LoopState :=
  let buf := st.currentBatches.get k ++ [frag]
  if B ≤ buf.length then
    { st with
      writes := st.writes ++ [⟨k, st.batchCounts.get k, buf⟩],
      batchCounts := st.batchCounts.set k (st.batchCounts.get k + 1),
      currentBatches := st.currentBatches.set k [] }
  else
    { st with currentBatches := st.currentBatches.set k buf }

/-- One iteration of the `read_event_into` match in `batch_osm_xml`.
`import_type` is the `"full"` / `"delta"` argument and `B` the
`elements_per_batch` argument. -/
def step (import_type : String) (B : Nat) (st : LoopState) : XmlEvent → LoopState
  | .startE tag attrs =>
    match kindOfName tag with
    | some k =>
        let ce := (if import_type = "delta" ∧ st.deltaContainer ≠ "" then
            containerOpen st.deltaContainer else "") ++ startTagStr tag attrs
        { st with elementType := k, inElement := true, elementDepth := 1,
                  currentElement := ce }
    | none =>
        if isContainerName tag ∧ import_type = "delta" then
          { st with deltaContainer := tag }
        else if st.inElement then
          { st with elementDepth := st.elementDepth + 1,
                    currentElement := st.currentElement ++ startTagStr tag attrs }
        else st
  | .endE tag =>
    match kindOfName tag with
    | some _ =>
        if st.inElement ∧ st.elementDepth = 1 then
          let ce0 := st.currentElement ++ endTagStr tag
          let ce := if import_type = "delta" ∧ st.deltaContainer ≠ "" then
              ce0 ++ containerClose st.deltaContainer else ce0
          let st1 := pushAndMaybeFlush B st.elementType ce { st with currentElement := ce }
          { st1 with inElement := false, elementDepth := 0 }
        else if st.inElement then
          { st with currentElement := st.currentElement ++ endTagStr tag,
                    elementDepth := st.elementDepth - 1 }
        else st
    | none =>
        if isContainerName tag ∧ import_type = "delta" then
          { st with deltaContainer := "" }
        else if st.inElement ∧ 1 < st.elementDepth then
          { st with currentElement := st.currentElement ++ endTagStr tag,
                    elementDepth := st.elementDepth - 1 }
        else st
  | .emptyE tag attrs =>
    match kindOfName tag with
    | some k =>
        let pre := if import_type = "delta" ∧ st.deltaContainer ≠ "" then
            containerOpen st.deltaContainer else ""
        let suf := if import_type = "delta" ∧ st.deltaContainer ≠ "" then
            containerClose st.deltaContainer else ""
        let ce := pre ++ selfCloseStr tag attrs ++ suf
        pushAndMaybeFlush B k ce { st with elementType := k, currentElement := ce }
    | none =>
        if st.inElement then
          { st with currentElement := st.currentElement ++ selfCloseStr tag attrs }
        else st
  | .textE s =>
      if st.inElement then
        { st with currentElement := st.currentElement ++ escapeText s }
      else st
  | .cdataE s =>
      if st.inElement then
        { st with currentElement := st.currentElement ++ "<![CDATA[" ++ s ++ "]]>" }
      else st

/-- The whole event loop of `batch_osm_xml`. -/
def processEvents (import_type : String) (B : Nat) (evs : List XmlEvent)
    (st : LoopState) : LoopState :=
  evs.foldl (step import_type B) st

/-- Association-list update with the lookup semantics of `HashMap::insert`:
replace the value of an existing key, otherwise add the binding. -/
def insertA : List (String × String) → String → String → List (String × String)
  | [], k, v => [(k, v)]
  | kv :: rest, k, v => if kv.1 = k then (k, v) :: rest else kv :: insertA rest k v

/-- Association-list lookup, the semantics of `HashMap::get`. -/
def lookupA (m : List (String × String)) (k : String) : Option String :=
  (m.find? (fun kv => kv.1 = k)).map (·.2)

/-- Map built from an attribute list by successive inserts, as the
`for attr in e.attributes()` loop of `parse_root_element` does.  The Rust
`HashMap` iterates in an unspecified order; this list fixes one order, and
all claims about the captured attributes go through `lookupA`. -/
def ofAttrs (attrs : List (String × String)) : List (String × String) :=
  attrs.foldl (fun m kv => insertA m kv.1 kv.2) []

/-- The `RootElementInfo` struct of `lib.rs`. -/
structure RootElementInfo where
  tag : String
  attributes : List (String × String)
deriving DecidableEq, Repr

/-- The fixed producer token embedded in the `generator` rewrite. -/
def producerTag : String :=
  "Chaldal osm-import-rust"

/-- The `generator` rewrite of `parse_root_element`: insert
`"<producer>; <previous-or-empty>"` under key `generator`. -/
def updateGenerator (m : List (String × String)) : List (String × String) :=
  insertA m "generator" (producerTag ++ "; " ++ (lookupA m "generator").getD "")

/-- Mirror of `parse_root_element`: scan events for the first start tag named
`osm` or `osmChange`, capture its attributes and rewrite `generator`; fail
at end of input. -/
def parse_root_element : List XmlEvent → Except String RootElementInfo
  | [] => .error "Could not find root element (osm or osmChange)"
  | .startE n attrs :: rest =>
      if n = "osm" ∨ n = "osmChange" then .ok ⟨n, updateGenerator (ofAttrs attrs)⟩
      else parse_root_element rest
  | _ :: rest => parse_root_element rest

/-- File content produced by `write_batch`: XML declaration, root open tag
with the captured attributes, one line per element fragment, root close
tag. -/
def write_batch_content (root : RootElementInfo) (elements : List String) : String :=
  "<?xml version='1.0' encoding='UTF-8'?>\n"
    ++ "<" ++ root.tag ++ attrsToString root.attributes ++ ">\n"
    ++ elements.foldl (fun acc e => acc ++ e ++ "\n") ""
    ++ endTagStr root.tag ++ "\n"

/-- Finalisation step for one kind at EOF: if its pending buffer is
non-empty, log one more `write_batch` call at the current count and bump the
count (the buffer itself is not cleared by the Rust loop, and is dead
afterwards). -/
def finalizeKind (st : LoopState) (k : Kind) : LoopState :=
  if st.currentBatches.get k = [] then st
  else
    { st with
      writes := st.writes ++ [⟨k, st.batchCounts.get k, st.currentBatches.get k⟩],
      batchCounts := st.batchCounts.set k (st.batchCounts.get k + 1) }

/-- Content of the completion marker for a kind:
`format!("wrote {} batches from {}\n", count, input_filename)`. -/
def completionMessage (input_filename : String) (count : Nat) : String :=
  "wrote " ++ natDecimal count ++ " batches from " ++ input_filename ++ "\n"

/-- Result of one `batch_osm_xml` run: the captured root info, the
chronological `write_batch` log, and the per-kind completion-marker contents
in the order they are written (`node`, `way`, `relation`). -/
structure RunResult where
  root : RootElementInfo
  writes : List BatchWrite
  completions : List (Kind × String)
deriving DecidableEq, Repr

/-- EOF finalisation of `batch_osm_xml`: for each kind in order `node`,
`way`, `relation`, flush the pending buffer if non-empty, then record the
completion-marker content with the resulting count. -/
def finalize (input_filename : String) (root : RootElementInfo) (st0 : LoopState) : RunResult :=
  let st1 := finalizeKind st0 .node
  let m1 := (Kind.node, completionMessage input_filename (st1.batchCounts.get .node))
  let st2 := finalizeKind st1 .way
  let m2 := (Kind.way, completionMessage input_filename (st2.batchCounts.get .way))
  let st3 := finalizeKind st2 .relation
  let m3 := (Kind.relation, completionMessage input_filename (st3.batchCounts.get .relation))
  ⟨root, st3.writes, [m1, m2, m3]⟩

/-- The parsing-and-batching core of `batch_osm_xml` on a source document
(root capture via `parse_root_element`, then the event loop, then EOF
finalisation).  `input_filename` is the file-name component of the input
path. -/
def batch_osm_xml_core (import_type : String) (B : Nat) (input_filename : String)
    (doc : Frag) : Except String RunResult :=
  match parse_root_element (eventsF doc) with
  | .error e => .error e
  | .ok root => .ok (finalize input_filename root (processEvents import_type B (eventsF doc) initState))

/-- The `write_batch` log entries for one kind, in chronological order. -/
def writesFor (k : Kind) (ws : List BatchWrite) : List BatchWrite :=
  ws.filter (fun w => w.kind = k)

/-- File-system actions performed by the batch builder, for the frame
claims: reads are non-mutating probes, everything else mutates. -/
inductive FsAction where
  | readFile (p : String)
  | writeFile (p : String) (content : String)
  | renameFile (src dst : String)
  | removeDirAll (p : String)
  | createDirAll (p : String)
deriving DecidableEq, Repr

/-- Path of a numbered batch file under an import directory, as formatted by
`write_batch`. -/
def batchPathOf (import_dir input_filename : String) (k : Kind) (n : Nat) : String :=
  import_dir ++ "/batches/" ++ k.name ++ "/" ++ input_filename
    ++ ".batch_" ++ pad6 n ++ ".xml"

/-- Path of a completion marker under an import directory, as formatted by
`batch_osm_xml`. -/
def completePathOf (import_dir input_filename : String) (k : Kind) : String :=
  import_dir ++ "/batches/" ++ k.name ++ "/" ++ input_filename ++ ".batches_complete"

/-- Actions of one `write_batch` call: write the `.temp` sibling, then
rename it over the final path. -/
def writeBatchActions (import_dir input_filename : String) (root : RootElementInfo)
    (w : BatchWrite) : List FsAction :=
  let p := batchPathOf import_dir input_filename w.kind w.index
  [.writeFile (p ++ ".temp") (write_batch_content root w.elements), .renameFile (p ++ ".temp") p]

/-- Mirror of `batch_osm_xml` at the level of file-system actions.
`completeExists` is the pre-state existence of the three completion markers
and `batchesDirExists` that of the batches directory; if all three markers
exist the function returns success immediately, otherwise it resets the
batches directory, reads the input, and runs the parsing core, whose batch
and completion writes are appended to the trace. -/
def batch_osm_xml (completeExists : Kind → Bool) (batchesDirExists : Bool)
    (import_type : String) (B : Nat) (import_dir input_file input_filename : String)
    (doc : Frag) : Except String (List FsAction) :=
  if completeExists .node && completeExists .way && completeExists .relation then
    .ok []
  else
    let batches_dir := import_dir ++ "/batches"
    let pre : List FsAction :=
      (if batchesDirExists then [.removeDirAll batches_dir] else [])
        ++ [.createDirAll batches_dir,
            .createDirAll (batches_dir ++ "/node"),
            .createDirAll (batches_dir ++ "/way"),
            .createDirAll (batches_dir ++ "/relation"),
            .readFile input_file]
    match batch_osm_xml_core import_type B input_filename doc with
    | .error e => .error e
    | .ok r =>
        .ok (pre ++ r.writes.flatMap (writeBatchActions import_dir input_filename r.root)
          ++ r.completions.map (fun km =>
               FsAction.writeFile (completePathOf import_dir input_filename km.1) km.2))

/-- Mutating actions are everything except reads. -/
def FsAction.isMutation : FsAction → Bool
  | .readFile _ => false
  | _ => true

/-- Abstract file contents for the fetcher model: `none` means the path does
not exist. -/
def FileStore : Type :=
  String → Option String

/-- Mirror of `utils::download_file` over an abstract remote (`remote url`
is the payload on a 2xx status, or the status text otherwise): on failure
the error `Download failed with status: …` and no change, on success the
destination holds the payload.  Parent-directory creation is not visible in
this file-content model. -/
def download_file (remote : String → Except String String) (url dest : String)
    (fs : FileStore) : Except String FileStore :=
  match remote url with
  | .error status => .error ("Download failed with status: " ++ status)
  | .ok payload => .ok (fun p => if p = dest then some payload else fs p)

/-- Source URL built by `download_osm_pbf`. -/
def pbfUrl (date : String) : String :=
  "https://download.geofabrik.de/asia/bangladesh-" ++ date ++ ".osm.pbf"

/-- Source URL built by `download_osc_gz`. -/
def oscGzUrl (abc : String) : String :=
  "https://download.geofabrik.de/asia/bangladesh-updates/" ++ abc ++ ".osc.gz"

/-- Mirror of `download_osm_pbf`: skip with success when the output path
exists, otherwise download. -/
def download_osm_pbf (remote : String → Except String String) (date output_path : String)
    (fs : FileStore) : Except String FileStore :=
  if (fs output_path).isSome then .ok fs
  else download_file remote (pbfUrl date) output_path fs

/-- Mirror of `download_osc_gz`: skip with success when the output path
exists, otherwise download. -/
def download_osc_gz (remote : String → Except String String) (abc output_path : String)
    (fs : FileStore) : Except String FileStore :=
  if (fs output_path).isSome then .ok fs
  else download_file remote (oscGzUrl abc) output_path fs

mutual

/-- No element anywhere in the tree is named like a kind or like a change
container (the descendants a top-level element may have in a well-formed
OSM document). -/
def cleanF : Frag → Bool
  | .elem n _ cs => !(isKindName n) && !(isContainerName n) && cleanL cs
  | .selfClose n _ => !(isKindName n) && !(isContainerName n)
  | .txt _ => true
  | .cdataF _ => true

/-- `cleanF` on every member of a list. -/
def cleanL : List Frag → Bool
  | [] => true
  | f :: fs => cleanF f && cleanL fs

end

mutual

/-- Well-formed top-level item of an OSM / osmChange document body:
a kind element with clean interior, a change container (delta only, and only
where containers are allowed) whose body is itself well formed without
further containers, or a fully clean subtree / text / CDATA. -/
def wfItem (import_type : String) (allowContainer : Bool) : Frag → Bool
  | .elem n _ cs =>
      if isKindName n then cleanL cs
      else if isContainerName n then
        decide (import_type = "delta") && allowContainer && wfItems import_type false cs
      else cleanL cs
  | .selfClose n _ =>
      if isKindName n then true
      else !(isContainerName n)
  | .txt _ => true
  | .cdataF _ => true

/-- `wfItem` on every member of a list. -/
def wfItems (import_type : String) (allowContainer : Bool) : List Frag → Bool
  | [] => true
  | f :: fs => wfItem import_type allowContainer f && wfItems import_type allowContainer fs

end

/-- Container wrapping applied to a pushed fragment, exactly the condition
and strings used by the machine. -/
def wrapC (import_type container : String) (s : String) : String :=
  (if import_type = "delta" ∧ container ≠ "" then containerOpen container else "")
    ++ s
    ++ (if import_type = "delta" ∧ container ≠ "" then containerClose container else "")

mutual

/-- Specification-side extraction: the serialised fragments of the
kind-`k` elements of a document body, in document order, each wrapped in its
enclosing change container (`container` is the container in scope). -/
def extractF (import_type : String) (k : Kind) (container : String) : Frag → List String
  | .elem n a cs =>
      if n = k.name then [wrapC import_type container (serializeF (.elem n a cs))]
      else if isContainerName n ∧ import_type = "delta" then extractL import_type k n cs
      else []
  | .selfClose n a =>
      if n = k.name then [wrapC import_type container (selfCloseStr n a)] else []
  | .txt _ => []
  | .cdataF _ => []

/-- `extractF` concatenated over a list. -/
def extractL (import_type : String) (k : Kind) (container : String) : List Frag → List String
  | [] => []
  | f :: fs => extractF import_type k container f ++ extractL import_type k container fs

end

/-- Invariant tying one kind's write log, pending buffer and batch count to
the sequence `done` of fragments pushed so far for that kind: the flushed
batches followed by the pending buffer are exactly `done` in order, the
buffer is strictly below the bound, every flushed batch holds exactly `B`
fragments, and the batch indices are `0, 1, …` in chronological order. -/
structure KindInv (B : Nat) (ws : List BatchWrite) (buf : List String) (cnt : Nat)
    (done : List String) : Prop where
  joined : (ws.map (fun w => w.elements)).flatten ++ buf = done
  bufLt : buf.length < B
  sizes : ∀ w ∈ ws, w.elements.length = B
  idx : ws.map (fun w => w.index) = List.range cnt

/-! Basic lemmas about the embedded definitions. -/

theorem strLength_append (a b : String) : (a ++ b).length = a.length + b.length := by
  cases a; cases b; simp [String.length, String.append]

theorem strLength_mk (l : List Char) : (String.mk l).length = l.length := rfl

theorem kindOfName_name (k : Kind) : kindOfName k.name = some k := by
  cases k <;> rfl

theorem isKindName_name (k : Kind) : isKindName k.name = true := by
  cases k <;> rfl

theorem name_of_kindOfName {s : String} {k : Kind} (h : kindOfName s = some k) :
    s = k.name := by
  unfold kindOfName at h
  split_ifs at h with h1 h2 h3 <;>
    first
      | exact Option.noConfusion h
      | (obtain rfl := Option.some.inj h; assumption)

theorem kindOfName_eq_none {s : String} (h : isKindName s = false) : kindOfName s = none := by
  unfold isKindName at h
  cases hk : kindOfName s with
  | none => rfl
  | some k => rw [hk] at h; simp at h

theorem Kind.name_inj : ∀ {k k2 : Kind}, k.name = k2.name → k = k2 := by
  intro k k2
  cases k <;> cases k2 <;> simp_all [Kind.name]

theorem isKindName_false_ne_name {n : String} (k : Kind) (h : isKindName n = false) :
    n ≠ k.name := by
  intro he
  rw [he, isKindName_name] at h
  exact Bool.noConfusion h

theorem KindMap.get_set_same {α : Type} (m : KindMap α) (k : Kind) (a : α) :
    (m.set k a).get k = a := by
  cases k <;> rfl

theorem KindMap.get_set_ne {α : Type} (m : KindMap α) (k k2 : Kind) (a : α) (h : k2 ≠ k) :
    (m.set k a).get k2 = m.get k2 := by
  cases k <;> cases k2 <;> first | rfl | exact absurd rfl h

theorem writesFor_append (k : Kind) (ws1 ws2 : List BatchWrite) :
    writesFor k (ws1 ++ ws2) = writesFor k ws1 ++ writesFor k ws2 := by
  simp [writesFor, List.filter_append]

theorem writesFor_snoc_same (k : Kind) (ws : List BatchWrite) (w : BatchWrite)
    (h : w.kind = k) : writesFor k (ws ++ [w]) = writesFor k ws ++ [w] := by
  simp [writesFor_append, writesFor, h]

theorem writesFor_snoc_other (k : Kind) (ws : List BatchWrite) (w : BatchWrite)
    (h : w.kind ≠ k) : writesFor k (ws ++ [w]) = writesFor k ws := by
  simp [writesFor_append, writesFor, h]

theorem lookupA_insertA_same (m : List (String × String)) (k v : String) :
    lookupA (insertA m k v) k = some v := by
  induction m with
  | nil => simp [insertA, lookupA]
  | cons kv rest ih =>
      unfold insertA
      by_cases h : kv.1 = k
      · simp [h, lookupA]
      · rw [if_neg h]
        unfold lookupA at ih ⊢
        rw [List.find?_cons_of_neg _ (by simpa using h)]
        exact ih

theorem lookupA_insertA_ne (m : List (String × String)) (k v k2 : String) (h : k2 ≠ k) :
    lookupA (insertA m k v) k2 = lookupA m k2 := by
  induction m with
  | nil =>
      unfold insertA lookupA
      rw [List.find?_cons_of_neg _ (by simp [Ne.symm h])]
  | cons kv rest ih =>
      unfold insertA
      by_cases hk : kv.1 = k
      · rw [if_pos hk]
        unfold lookupA
        rw [List.find?_cons_of_neg _ (by simp [Ne.symm h]),
          List.find?_cons_of_neg _ (by simp [hk, Ne.symm h])]
      · rw [if_neg hk]
        by_cases hk2 : kv.1 = k2
        · unfold lookupA
          rw [List.find?_cons_of_pos _ (by simp [hk2]),
            List.find?_cons_of_pos _ (by simp [hk2])]
        · unfold lookupA at ih ⊢
          rw [List.find?_cons_of_neg _ (by simp [hk2]),
            List.find?_cons_of_neg _ (by simp [hk2])]
          exact ih

/-! Decimal-formatting lemmas. -/

theorem digitChar_isDigit {d : Nat} (h : d < 10) : (Nat.digitChar d).isDigit = true := by
  interval_cases d <;> decide

theorem decDigitsAux_len_le (fuel : Nat) : ∀ n k : Nat, n ≤ fuel → n < 10 ^ k →
    (decDigitsAux fuel n).length ≤ k := by
  induction fuel with
  | zero => intro n k _ _; simp [decDigitsAux]
  | succ f ih =>
      intro n k hfn hk
      unfold decDigitsAux
      by_cases h0 : n = 0
      · simp [h0]
      · have hk1 : 1 ≤ k := by
          rcases Nat.eq_zero_or_pos k with hz | hp
          · rw [hz, pow_zero] at hk; omega
          · exact hp
        have hdiv : n / 10 < 10 ^ (k - 1) := by
          have h2 : 10 ^ k = 10 * 10 ^ (k - 1) := by
            conv_lhs => rw [← Nat.sub_add_cancel hk1]
            rw [pow_succ, Nat.mul_comm]
          exact Nat.div_lt_of_lt_mul (h2 ▸ hk)
        have hfuel : n / 10 ≤ f := by
          have := Nat.div_lt_self (Nat.pos_of_ne_zero h0) (by norm_num : 1 < 10)
          omega
        have hlen := ih (n / 10) (k - 1) hfuel hdiv
        simp only [h0, if_false, List.length_append, List.length_singleton]
        omega

theorem decDigitsAux_digits (fuel : Nat) : ∀ n : Nat, ∀ c ∈ decDigitsAux fuel n,
    c.isDigit = true := by
  induction fuel with
  | zero => intro n c hc; simp [decDigitsAux] at hc
  | succ f ih =>
      intro n c hc
      unfold decDigitsAux at hc
      by_cases h0 : n = 0
      · simp [h0] at hc
      · simp only [h0, if_false, List.mem_append, List.mem_singleton] at hc
        rcases hc with hc | hc
        · exact ih (n / 10) c hc
        · rw [hc]; exact digitChar_isDigit (Nat.mod_lt n (by norm_num))

theorem natDecimal_len_le {n k : Nat} (hk : 1 ≤ k) (h : n < 10 ^ k) :
    (natDecimal n).length ≤ k := by
  unfold natDecimal
  by_cases h0 : n = 0
  · simpa [h0] using hk
  · simpa [h0, strLength_mk] using decDigitsAux_len_le n n k le_rfl h

theorem natDecimal_digits (n : Nat) : ∀ c ∈ (natDecimal n).data, c.isDigit = true := by
  unfold natDecimal
  by_cases h0 : n = 0
  · simp [h0]
  · simpa [h0] using decDigitsAux_digits n n

theorem pad6_length {n : Nat} (h : n < 1000000) : (pad6 n).length = 6 := by
  have hle : (natDecimal n).length ≤ 6 :=
    natDecimal_len_le (by norm_num) (by norm_num at h ⊢; omega)
  unfold pad6
  by_cases hlt : (natDecimal n).length < 6
  · simp only [hlt, if_true, strLength_append, strLength_mk, List.length_replicate]
    omega
  · simp only [hlt, if_false]
    omega

theorem pad6_digits (n : Nat) : ∀ c ∈ (pad6 n).data, c.isDigit = true := by
  unfold pad6
  intro c hc
  by_cases hlt : (natDecimal n).length < 6
  · simp only [hlt, if_true] at hc
    have : (String.mk (List.replicate (6 - (natDecimal n).length) '0') ++ natDecimal n).data
        = List.replicate (6 - (natDecimal n).length) '0' ++ (natDecimal n).data := by
      cases hh : natDecimal n; rfl
    rw [this, List.mem_append] at hc
    rcases hc with hc | hc
    · rw [List.eq_of_mem_replicate hc]; decide
    · exact natDecimal_digits n c hc
  · simp only [hlt, if_false] at hc
    exact natDecimal_digits n c hc

/-! Behaviour of the flush-on-push helper. -/

theorem pushAndMaybeFlush_flush (B : Nat) (k : Kind) (frag : String) (st : LoopState)
    (h : B ≤ (st.currentBatches.get k).length + 1) :
    pushAndMaybeFlush B k frag st =
      { st with
        writes := st.writes ++ [⟨k, st.batchCounts.get k, st.currentBatches.get k ++ [frag]⟩],
        batchCounts := st.batchCounts.set k (st.batchCounts.get k + 1),
        currentBatches := st.currentBatches.set k [] } := by
  unfold pushAndMaybeFlush
  rw [if_pos (by simpa using h)]

theorem pushAndMaybeFlush_push (B : Nat) (k : Kind) (frag : String) (st : LoopState)
    (h : (st.currentBatches.get k).length + 1 < B) :
    pushAndMaybeFlush B k frag st =
      { st with
        currentBatches := st.currentBatches.set k (st.currentBatches.get k ++ [frag]) } := by
  unfold pushAndMaybeFlush
  rw [if_neg (by simp; omega)]

/-! Claim theorems for the oracle, paths, validators, fetchers and the
self-closing-element step, with their witnesses. -/

/-- C3: for every file-system state and every (import, kind, batch index)
query, `check_batch_file_status` returns exactly the four-way outcome the
spec describes: `ReadOk(content)` when the batch file exists and reads
successfully, `ReadErr` when it exists but reading fails, `NeverWillBe` when
it does not exist but the completion marker does, and `NotYet` in every
other case. -/
theorem c3_oracle_outcomes (fs : Fs) (io : ImportOptions) (element_type : String)
    (batch_number : Nat) :
    check_batch_file_status fs io element_type batch_number =
      oracleOutcomeSpec fs (io.get_batch_file element_type batch_number)
        (io.get_batches_complete_file element_type) := by
  unfold check_batch_file_status oracleOutcomeSpec
  cases h1 : fs.pathExists (io.get_batch_file element_type batch_number) <;>
    cases h2 : fs.readToString (io.get_batch_file element_type batch_number) <;>
      simp [h1, h2]

/-- C4 counterexample: the claim says every component derives the import
directory `data/<type>/<scope>`; the RPC adapter in `main.rs` computes
`./data/bangladesh/full/010123` for the full import `010123`, which differs
from the `./data/full/010123` that the library's `ImportOptions` (also cited
by the claim) derives for the same import. -/
theorem c4_counterexample :
    mainImportDir "full" "010123" ≠ "./data/" ++ "full" ++ "/" ++ "010123" ∧
    (ImportOptions.mk (.full "010123") "").get_import_dir
      = "./data/" ++ "full" ++ "/" ++ "010123" := by
  constructor
  · decide
  · rfl

/-- C4 amended: the library path algebra uses `./data/<type>/<scope>` while
the RPC adapter in `main.rs` uses `./data/bangladesh/<type>/<scope>`; in
both, the batch file probed or written for kind `k` and index `n` is
`<import_dir>/batches/<k>/<source_base>.batch_<NNNNNN>.xml`, where for
`n < 10^6` the `NNNNNN` component is the zero-padded six-digit decimal of
`n`. -/
theorem c4_amended :
    (∀ o : ImportOptions,
        o.get_import_dir = "./data/" ++ o.get_import_type ++ "/" ++ o.get_import_scope) ∧
    (∀ t d : String, mainImportDir t d = "./data/bangladesh/" ++ t ++ "/" ++ d) ∧
    (∀ (o : ImportOptions) (et : String) (n : Nat),
        o.get_batch_file et n = o.get_import_dir ++ "/batches/" ++ et ++ "/"
          ++ o.get_filename_base ++ ".batch_" ++ pad6 n ++ ".xml") ∧
    (∀ (dir et file : String) (n : Nat),
        mainBatchFile dir et file n = dir ++ "/batches/" ++ et ++ "/" ++ file
          ++ ".batch_" ++ pad6 n ++ ".xml") ∧
    (∀ n : Nat, n < 1000000 →
        (pad6 n).length = 6 ∧ ∀ c ∈ (pad6 n).data, c.isDigit = true) := by
  refine ⟨fun _ => rfl, fun _ _ => rfl, fun _ _ _ => rfl, fun _ _ _ _ => rfl, ?_⟩
  intro n hn
  exact ⟨pad6_length hn, pad6_digits n⟩

/-- Witness for the amended C4 at the concrete index 7. -/
theorem c4_amended_witness :
    7 < 1000000 ∧ ((pad6 7).length = 6 ∧ ∀ c ∈ (pad6 7).data, c.isDigit = true) :=
  ⟨by norm_num, c4_amended.2.2.2.2 7 (by norm_num)⟩

theorem specAbcForm_length {s : String} (h : SpecAbcForm s) : s.length = 11 := by
  obtain ⟨a, b, c, hs, ha, hb, hc, _⟩ := h
  subst hs
  simp [strLength_append, ha, hb, hc]
  rfl

/-- C5 counterexample: the inline delta validation in `main.rs` accepts
`"1/2/3"`, which is not of the form `AAA/BBB/CCC` with three-digit
segments (its length is 5, not 11), so the claim's "accepts if and only if"
fails for the adapter's validation (one of its cited sources). -/
theorem c5_counterexample :
    mainDeltaValid "1/2/3" = true ∧ ¬ SpecAbcForm "1/2/3" := by
  constructor
  · decide
  · intro h
    have := specAbcForm_length h
    simp [String.length] at this

theorem deltaAbcRegexMatches_iff (s : String) :
    deltaAbcRegexMatches s = true ↔ SpecAbcForm s := by
  constructor
  · intro h
    obtain ⟨l⟩ := s
    revert h
    unfold deltaAbcRegexMatches
    split
    · rename_i a1 a2 a3 s1 b1 b2 b3 s2 c1 c2 c3 heq
      intro h
      simp only [Bool.and_eq_true, beq_iff_eq] at h
      obtain ⟨⟨⟨⟨⟨⟨⟨⟨⟨⟨hA1, hA2⟩, hA3⟩, hS1⟩, hB1⟩, hB2⟩, hB3⟩, hS2⟩, hC1⟩, hC2⟩, hC3⟩ := h
      simp only [String.data] at heq
      subst heq; subst hS1; subst hS2
      exact ⟨⟨[a1, a2, a3]⟩, ⟨[b1, b2, b3]⟩, ⟨[c1, c2, c3]⟩, rfl, rfl, rfl, rfl, by
        simp [List.all_cons, hA1, hA2, hA3, hB1, hB2, hB3, hC1, hC2, hC3]⟩
    · intro h
      exact absurd h (by simp)
  · rintro ⟨a, b, c, hs, ha, hb, hc, hd⟩
    obtain ⟨a1, a2, a3, hA⟩ := List.length_eq_three.mp (show a.data.length = 3 from ha)
    obtain ⟨b1, b2, b3, hB⟩ := List.length_eq_three.mp (show b.data.length = 3 from hb)
    obtain ⟨c1, c2, c3, hC⟩ := List.length_eq_three.mp (show c.data.length = 3 from hc)
    have hdata : s.data = a.data ++ '/' :: (b.data ++ '/' :: c.data) := by
      subst hs; cases a; cases b; cases c; simp [String.append]
    rw [hA, hB, hC] at hdata hd
    simp only [List.all_append, List.all_cons, Bool.and_eq_true] at hd
    unfold deltaAbcRegexMatches
    rw [hdata]
    simp only [List.cons_append, List.nil_append]
    simp [hd.1.1, hd.1.2, hd.2]

/-- C5 amended: the library validator `DeltaAbc::new` accepts exactly the
strings of the form `AAA/BBB/CCC` with three three-digit segments and
returns a validation error (never a value) on every other input; the RPC
adapter's inline check is weaker — it accepts every string of digits and
slashes containing exactly two slashes, in particular every string of the
`AAA/BBB/CCC` form. -/
theorem c5_amended :
    (∀ s : String, (∃ d, DeltaAbc.new s = .ok d) ↔ SpecAbcForm s) ∧
    (∀ s : String, ¬ SpecAbcForm s →
        DeltaAbc.new s = .error ("Invalid ABC format: " ++ s ++ " (expected AAA/BBB/CCC)")) ∧
    (∀ s : String, SpecAbcForm s → mainDeltaValid s = true) := by
  refine ⟨?_, ?_, ?_⟩
  · intro s
    unfold DeltaAbc.new
    by_cases h : deltaAbcRegexMatches s = true
    · simp [h, (deltaAbcRegexMatches_iff s).mp h]
    · have hn : ¬ SpecAbcForm s := fun hs => h ((deltaAbcRegexMatches_iff s).mpr hs)
      simp [h, hn]
  · intro s hs
    have h : deltaAbcRegexMatches s = false := by
      cases h : deltaAbcRegexMatches s
      · rfl
      · exact absurd ((deltaAbcRegexMatches_iff s).mp h) hs
    simp [DeltaAbc.new, h]
  · rintro s ⟨a, b, c, hs, _, _, _, hd⟩
    have hdata : s.data = a.data ++ '/' :: (b.data ++ '/' :: c.data) := by
      subst hs; cases a; cases b; cases c; simp [String.append]
    simp only [List.all_append, List.all_cons, Bool.and_eq_true] at hd
    have hnd : ∀ x : List Char, x.all Char.isDigit = true → x.count '/' = 0 := by
      intro x hx
      rw [List.count_eq_zero]
      intro hmem
      have := (List.all_eq_true.mp hx) _ hmem
      simp at this
    have hcount : (a.data ++ '/' :: (b.data ++ '/' :: c.data)).count '/' = 2 := by
      simp [List.count_append, List.count_cons, hnd _ hd.1.1, hnd _ hd.1.2, hnd _ hd.2]
    have hall : ∀ x ∈ a.data ++ '/' :: (b.data ++ '/' :: c.data),
        (x.isDigit || x == '/') = true := by
      intro x hx
      simp only [List.mem_append, List.mem_cons] at hx
      rcases hx with hx | hx | hx | hx | hx
      · rw [(List.all_eq_true.mp hd.1.1) x hx]; rfl
      · subst hx; rfl
      · rw [(List.all_eq_true.mp hd.1.2) x hx]; rfl
      · subst hx; rfl
      · rw [(List.all_eq_true.mp hd.2) x hx]; rfl
    unfold mainDeltaValid mainDeltaArgInvalid
    rw [hdata]
    simp [hcount, List.all_eq_true.mpr hall]

/-- Witness for the amended C5 at the concrete input `"123/456/789"`. -/
theorem c5_amended_witness :
    (∃ d, DeltaAbc.new "123/456/789" = .ok d) ∧ mainDeltaValid "123/456/789" = true := by
  have hform : SpecAbcForm "123/456/789" :=
    ⟨"123", "456", "789", rfl, rfl, rfl, rfl, by decide⟩
  exact ⟨(c5_amended.1 "123/456/789").mpr hform, c5_amended.2.2 "123/456/789" hform⟩

/-- C9: when all three completion markers already exist, `batch_osm_xml`
returns success with an empty action trace: the input file is not read, the
batches directory is not deleted, and no file is created, modified or
renamed. -/
theorem c9_skip_if_done (completeExists : Kind → Bool) (batchesDirExists : Bool)
    (import_type : String) (B : Nat) (import_dir input_file input_filename : String)
    (doc : Frag)
    (h : completeExists .node = true ∧ completeExists .way = true ∧
      completeExists .relation = true) :
    batch_osm_xml completeExists batchesDirExists import_type B import_dir input_file
      input_filename doc = .ok [] := by
  unfold batch_osm_xml
  simp [h.1, h.2.1, h.2.2]

/-- Witness for C9 on a concrete file-system state and document. -/
theorem c9_skip_if_done_witness :
    batch_osm_xml (fun _ => true) true "full" 500 "./data/full/010123" "in.osm" "010123.osm"
      (.elem "osm" [] []) = .ok [] :=
  c9_skip_if_done (fun _ => true) true "full" 500 "./data/full/010123" "in.osm" "010123.osm"
    (.elem "osm" [] []) ⟨rfl, rfl, rfl⟩

/-- C10: the fetch pipeline (`download_osm_pbf` / `download_osc_gz`, each a
skip-if-exists guard around `utils::download_file`) makes the destination
exist with the remote payload when the destination is absent and the remote
responds successfully, changing no other path; and when the destination
already exists it succeeds without touching the file-system state at all. -/
theorem c10_fetch (remote : String → Except String String) (date abc dest : String)
    (fs : FileStore) :
    (fs dest = none → ∀ payload, remote (pbfUrl date) = .ok payload →
        ∃ fs2, download_osm_pbf remote date dest fs = .ok fs2 ∧ fs2 dest = some payload ∧
          ∀ p, p ≠ dest → fs2 p = fs p) ∧
    (∀ c, fs dest = some c → download_osm_pbf remote date dest fs = .ok fs) ∧
    (fs dest = none → ∀ payload, remote (oscGzUrl abc) = .ok payload →
        ∃ fs2, download_osc_gz remote abc dest fs = .ok fs2 ∧ fs2 dest = some payload ∧
          ∀ p, p ≠ dest → fs2 p = fs p) ∧
    (∀ c, fs dest = some c → download_osc_gz remote abc dest fs = .ok fs) := by
  refine ⟨?_, ?_, ?_, ?_⟩
  · intro h payload hp
    refine ⟨fun p => if p = dest then some payload else fs p, ?_, by simp, ?_⟩
    · simp [download_osm_pbf, h, download_file, hp]
    · intro p hne; simp [hne]
  · intro c hc; simp [download_osm_pbf, hc]
  · intro h payload hp
    refine ⟨fun p => if p = dest then some payload else fs p, ?_, by simp, ?_⟩
    · simp [download_osc_gz, h, download_file, hp]
    · intro p hne; simp [hne]
  · intro c hc; simp [download_osc_gz, hc]

/-- Witness for C10 on a concrete remote and empty file-system state. -/
theorem c10_fetch_witness :
    (∃ fs2, download_osm_pbf (fun _ => .ok "PBFDATA") "010123"
        "./data/full/010123/010123.osm.pbf" (fun _ => none) = .ok fs2 ∧
        fs2 "./data/full/010123/010123.osm.pbf" = some "PBFDATA" ∧
        ∀ p, p ≠ "./data/full/010123/010123.osm.pbf" → fs2 p = none) ∧
    download_osm_pbf (fun _ => .ok "PBFDATA") "010123" "./data/full/010123/010123.osm.pbf"
      (fun _ => some "OLD") = .ok (fun _ => some "OLD") := by
  constructor
  · exact (c10_fetch (fun _ => .ok "PBFDATA") "010123" "000/001/002"
      "./data/full/010123/010123.osm.pbf" (fun _ => none)).1 rfl "PBFDATA" rfl
  · exact (c10_fetch (fun _ => .ok "PBFDATA") "010123" "000/001/002"
      "./data/full/010123/010123.osm.pbf" (fun _ => some "OLD")).2.1 "OLD" rfl

/-- C8: an Empty (self-closing) event for a kind-named tag while the machine
is Idle emits the self-closing tag (wrapped in the current change container
for delta imports), pushes the fragment onto that kind's pending buffer,
flushes a numbered batch exactly when the buffer reaches the bound, and
leaves the machine Idle: `in_element` stays false and the depth and
container are unchanged. -/
theorem c8_empty_step_idle (import_type : String) (B : Nat) (st : LoopState)
    (tag : String) (attrs : List (String × String)) (k : Kind)
    (hk : kindOfName tag = some k) (hidle : st.inElement = false) :
    step import_type B st (.emptyE tag attrs) =
      pushAndMaybeFlush B k (wrapC import_type st.deltaContainer (selfCloseStr tag attrs))
        { st with elementType := k,
                  currentElement := wrapC import_type st.deltaContainer
                    (selfCloseStr tag attrs) } ∧
    (step import_type B st (.emptyE tag attrs)).inElement = false ∧
    (step import_type B st (.emptyE tag attrs)).elementDepth = st.elementDepth ∧
    (step import_type B st (.emptyE tag attrs)).deltaContainer = st.deltaContainer ∧
    (B ≤ (st.currentBatches.get k).length + 1 →
        (step import_type B st (.emptyE tag attrs)).writes = st.writes ++
          [⟨k, st.batchCounts.get k,
            st.currentBatches.get k ++ [wrapC import_type st.deltaContainer
              (selfCloseStr tag attrs)]⟩] ∧
        (step import_type B st (.emptyE tag attrs)).currentBatches.get k = []) ∧
    ((st.currentBatches.get k).length + 1 < B →
        (step import_type B st (.emptyE tag attrs)).writes = st.writes ∧
        (step import_type B st (.emptyE tag attrs)).currentBatches.get k =
          st.currentBatches.get k ++ [wrapC import_type st.deltaContainer
            (selfCloseStr tag attrs)]) := by
  have hstep : step import_type B st (.emptyE tag attrs) =
      pushAndMaybeFlush B k (wrapC import_type st.deltaContainer (selfCloseStr tag attrs))
        { st with elementType := k,
                  currentElement := wrapC import_type st.deltaContainer
                    (selfCloseStr tag attrs) } := by
    simp only [step, hk, wrapC]
  rw [hstep]
  by_cases hfull : B ≤ (st.currentBatches.get k).length + 1
  · have hpf := pushAndMaybeFlush_flush B k
      (wrapC import_type st.deltaContainer (selfCloseStr tag attrs))
      { st with elementType := k,
                currentElement := wrapC import_type st.deltaContainer (selfCloseStr tag attrs) }
      hfull
    rw [hpf]
    exact ⟨rfl, hidle, rfl, rfl, fun _ => ⟨rfl, KindMap.get_set_same _ _ _⟩,
      fun hlt => absurd hfull (by omega)⟩
  · have hlt : (st.currentBatches.get k).length + 1 < B := by omega
    have hpf := pushAndMaybeFlush_push B k
      (wrapC import_type st.deltaContainer (selfCloseStr tag attrs))
      { st with elementType := k,
                currentElement := wrapC import_type st.deltaContainer (selfCloseStr tag attrs) }
      hlt
    rw [hpf]
    exact ⟨rfl, hidle, rfl, rfl, fun hge => absurd hge hfull,
      fun _ => ⟨rfl, KindMap.get_set_same _ _ _⟩⟩

/-- Witness for C8: a concrete step at batch bound 1 flushes immediately and
stays Idle. -/
theorem c8_empty_step_idle_witness :
    kindOfName "node" = some Kind.node ∧ initState.inElement = false ∧
    (step "full" 1 initState (.emptyE "node" [("id", "1")])).inElement = false ∧
    (step "full" 1 initState (.emptyE "node" [("id", "1")])).writes =
      initState.writes ++ [⟨.node, initState.batchCounts.get .node,
        initState.currentBatches.get .node ++ [wrapC "full"
          initState.deltaContainer (selfCloseStr "node" [("id", "1")])]⟩] :=
  ⟨rfl, rfl,
    (c8_empty_step_idle "full" 1 initState "node" [("id", "1")] .node rfl rfl).2.1,
    ((c8_empty_step_idle "full" 1 initState "node" [("id", "1")] .node rfl rfl).2.2.2.2.1
      (by decide)).1⟩

/-! Single-event behaviour of the machine, split by match arm. -/

theorem processEvents_nil (it : String) (B : Nat) (st : LoopState) :
    processEvents it B [] st = st := rfl

theorem processEvents_cons (it : String) (B : Nat) (e : XmlEvent) (evs : List XmlEvent)
    (st : LoopState) :
    processEvents it B (e :: evs) st = processEvents it B evs (step it B st e) := rfl

theorem processEvents_single (it : String) (B : Nat) (e : XmlEvent) (st : LoopState) :
    processEvents it B [e] st = step it B st e := rfl

theorem processEvents_append (it : String) (B : Nat) (evs1 evs2 : List XmlEvent)
    (st : LoopState) :
    processEvents it B (evs1 ++ evs2) st =
      processEvents it B evs2 (processEvents it B evs1 st) := by
  unfold processEvents
  exact List.foldl_append _ _ _ _

theorem container_not_kind {n : String} (h : isContainerName n = true) :
    isKindName n = false := by
  unfold isContainerName at h
  simp only [Bool.or_eq_true, beq_iff_eq] at h
  rcases h with (h | h) | h <;> subst h <;> rfl

theorem kind_not_container (k : Kind) : isContainerName k.name = false := by
  cases k <;> rfl

theorem step_start_kind (it : String) (B : Nat) (st : LoopState) (tag : String)
    (attrs : List (String × String)) (k : Kind) (hk : kindOfName tag = some k) :
    step it B st (.startE tag attrs) =
      { st with
        elementType := k, inElement := true, elementDepth := 1,
        currentElement :=
          (if it = "delta" ∧ st.deltaContainer ≠ "" then containerOpen st.deltaContainer
            else "") ++ startTagStr tag attrs } := by
  simp only [step, hk]

theorem step_start_container (it : String) (B : Nat) (st : LoopState) (tag : String)
    (attrs : List (String × String)) (hk : isKindName tag = false)
    (hc : isContainerName tag = true) (hd : it = "delta") :
    step it B st (.startE tag attrs) = { st with deltaContainer := tag } := by
  simp only [step, kindOfName_eq_none hk]
  rw [if_pos ⟨by rw [hc], hd⟩]

theorem step_start_other_in (it : String) (B : Nat) (st : LoopState) (tag : String)
    (attrs : List (String × String)) (hk : isKindName tag = false)
    (hc : ¬ (isContainerName tag = true ∧ it = "delta")) (hin : st.inElement = true) :
    step it B st (.startE tag attrs) =
      { st with
        elementDepth := st.elementDepth + 1,
        currentElement := st.currentElement ++ startTagStr tag attrs } := by
  simp only [step, kindOfName_eq_none hk]
  rw [if_neg (by simpa using hc), if_pos hin]

theorem step_start_other_idle (it : String) (B : Nat) (st : LoopState) (tag : String)
    (attrs : List (String × String)) (hk : isKindName tag = false)
    (hc : ¬ (isContainerName tag = true ∧ it = "delta")) (hin : st.inElement = false) :
    step it B st (.startE tag attrs) = st := by
  simp only [step, kindOfName_eq_none hk]
  rw [if_neg (by simpa using hc), if_neg (by simp [hin])]

theorem step_end_kind_d1 (it : String) (B : Nat) (st : LoopState) (tag : String)
    (k : Kind) (hk : kindOfName tag = some k) (hin : st.inElement = true)
    (hd : st.elementDepth = 1) :
    step it B st (.endE tag) =
      { pushAndMaybeFlush B st.elementType
          (if it = "delta" ∧ st.deltaContainer ≠ "" then
            st.currentElement ++ endTagStr tag ++ containerClose st.deltaContainer
          else st.currentElement ++ endTagStr tag)
          { st with
            currentElement :=
              (if it = "delta" ∧ st.deltaContainer ≠ "" then
                st.currentElement ++ endTagStr tag ++ containerClose st.deltaContainer
              else st.currentElement ++ endTagStr tag) } with
        inElement := false, elementDepth := 0 } := by
  simp only [step, hk]
  rw [if_pos ⟨hin, hd⟩]

theorem step_end_kind_deep (it : String) (B : Nat) (st : LoopState) (tag : String)
    (k : Kind) (hk : kindOfName tag = some k) (hin : st.inElement = true)
    (hd : st.elementDepth ≠ 1) :
    step it B st (.endE tag) =
      { st with
        currentElement := st.currentElement ++ endTagStr tag,
        elementDepth := st.elementDepth - 1 } := by
  simp only [step, hk]
  rw [if_neg (by simp [hd]), if_pos hin]

theorem step_end_container (it : String) (B : Nat) (st : LoopState) (tag : String)
    (hk : isKindName tag = false) (hc : isContainerName tag = true) (hd : it = "delta") :
    step it B st (.endE tag) = { st with deltaContainer := "" } := by
  simp only [step, kindOfName_eq_none hk]
  rw [if_pos ⟨by rw [hc], hd⟩]

theorem step_end_other_in (it : String) (B : Nat) (st : LoopState) (tag : String)
    (hk : isKindName tag = false) (hc : ¬ (isContainerName tag = true ∧ it = "delta"))
    (hin : st.inElement = true) (hd : 1 < st.elementDepth) :
    step it B st (.endE tag) =
      { st with
        currentElement := st.currentElement ++ endTagStr tag,
        elementDepth := st.elementDepth - 1 } := by
  simp only [step, kindOfName_eq_none hk]
  rw [if_neg (by simpa using hc), if_pos ⟨hin, hd⟩]

theorem step_end_other_idle (it : String) (B : Nat) (st : LoopState) (tag : String)
    (hk : isKindName tag = false) (hc : ¬ (isContainerName tag = true ∧ it = "delta"))
    (hin : st.inElement = false) :
    step it B st (.endE tag) = st := by
  simp only [step, kindOfName_eq_none hk]
  rw [if_neg (by simpa using hc), if_neg (by simp [hin])]

theorem step_empty_kind (it : String) (B : Nat) (st : LoopState) (tag : String)
    (attrs : List (String × String)) (k : Kind) (hk : kindOfName tag = some k) :
    step it B st (.emptyE tag attrs) =
      pushAndMaybeFlush B k (wrapC it st.deltaContainer (selfCloseStr tag attrs))
        { st with
        elementType := k,
        currentElement := wrapC it st.deltaContainer (selfCloseStr tag attrs) } := by
  simp only [step, hk, wrapC]

theorem step_empty_other_in (it : String) (B : Nat) (st : LoopState) (tag : String)
    (attrs : List (String × String)) (hk : isKindName tag = false)
    (hin : st.inElement = true) :
    step it B st (.emptyE tag attrs) =
      { st with currentElement := st.currentElement ++ selfCloseStr tag attrs } := by
  simp only [step, kindOfName_eq_none hk]
  rw [if_pos hin]

theorem step_empty_other_idle (it : String) (B : Nat) (st : LoopState) (tag : String)
    (attrs : List (String × String)) (hk : isKindName tag = false)
    (hin : st.inElement = false) :
    step it B st (.emptyE tag attrs) = st := by
  simp only [step, kindOfName_eq_none hk]
  rw [if_neg (by simp [hin])]

theorem step_text_in (it : String) (B : Nat) (st : LoopState) (s : String)
    (hin : st.inElement = true) :
    step it B st (.textE s) =
      { st with currentElement := st.currentElement ++ escapeText s } := by
  simp only [step]
  rw [if_pos hin]

theorem step_text_idle (it : String) (B : Nat) (st : LoopState) (s : String)
    (hin : st.inElement = false) :
    step it B st (.textE s) = st := by
  simp only [step]
  rw [if_neg (by simp [hin])]

theorem step_cdata_in (it : String) (B : Nat) (st : LoopState) (s : String)
    (hin : st.inElement = true) :
    step it B st (.cdataE s) =
      { st with currentElement := st.currentElement ++ "<![CDATA[" ++ s ++ "]]>" } := by
  simp only [step]
  rw [if_pos hin]

theorem step_cdata_idle (it : String) (B : Nat) (st : LoopState) (s : String)
    (hin : st.inElement = false) :
    step it B st (.cdataE s) = st := by
  simp only [step]
  rw [if_neg (by simp [hin])]

/-! Projections of the flush-on-push helper. -/

theorem pushAndMaybeFlush_inElement (B : Nat) (k : Kind) (frag : String) (st : LoopState) :
    (pushAndMaybeFlush B k frag st).inElement = st.inElement := by
  by_cases h : B ≤ (st.currentBatches.get k).length + 1
  · rw [pushAndMaybeFlush_flush B k frag st h]
  · rw [pushAndMaybeFlush_push B k frag st (by omega)]

theorem pushAndMaybeFlush_elementDepth (B : Nat) (k : Kind) (frag : String) (st : LoopState) :
    (pushAndMaybeFlush B k frag st).elementDepth = st.elementDepth := by
  by_cases h : B ≤ (st.currentBatches.get k).length + 1
  · rw [pushAndMaybeFlush_flush B k frag st h]
  · rw [pushAndMaybeFlush_push B k frag st (by omega)]

theorem pushAndMaybeFlush_deltaContainer (B : Nat) (k : Kind) (frag : String)
    (st : LoopState) :
    (pushAndMaybeFlush B k frag st).deltaContainer = st.deltaContainer := by
  by_cases h : B ≤ (st.currentBatches.get k).length + 1
  · rw [pushAndMaybeFlush_flush B k frag st h]
  · rw [pushAndMaybeFlush_push B k frag st (by omega)]

theorem pushAndMaybeFlush_inv (B : Nat) (hB : 0 < B) (k : Kind) (frag : String)
    (st : LoopState) (done : List String)
    (hkv : KindInv B (writesFor k st.writes) (st.currentBatches.get k)
      (st.batchCounts.get k) done) :
    KindInv B (writesFor k (pushAndMaybeFlush B k frag st).writes)
      ((pushAndMaybeFlush B k frag st).currentBatches.get k)
      ((pushAndMaybeFlush B k frag st).batchCounts.get k) (done ++ [frag]) ∧
    ∀ k2, k2 ≠ k →
      writesFor k2 (pushAndMaybeFlush B k frag st).writes = writesFor k2 st.writes ∧
      (pushAndMaybeFlush B k frag st).currentBatches.get k2 = st.currentBatches.get k2 ∧
      (pushAndMaybeFlush B k frag st).batchCounts.get k2 = st.batchCounts.get k2 := by
  by_cases hfull : B ≤ (st.currentBatches.get k).length + 1
  · rw [pushAndMaybeFlush_flush B k frag st hfull]
    constructor
    · refine ⟨?_, ?_, ?_, ?_⟩
      · rw [writesFor_snoc_same k _ _ rfl]
        simp only [List.map_append, List.map_cons, List.map_nil, List.flatten_append,
          List.flatten_cons, List.flatten_nil, KindMap.get_set_same, List.append_nil]
        rw [← List.append_assoc, hkv.joined]
      · simp [KindMap.get_set_same, hB]
      · intro w hw
        rw [writesFor_snoc_same k _ _ rfl] at hw
        rcases List.mem_append.mp hw with hw | hw
        · exact hkv.sizes w hw
        · rcases List.mem_singleton.mp hw with rfl
          have := hkv.bufLt
          simp only [List.length_append, List.length_singleton]
          omega
      · rw [writesFor_snoc_same k _ _ rfl, KindMap.get_set_same]
        simp only [List.map_append, List.map_cons, List.map_nil]
        rw [hkv.idx, List.range_succ]
    · intro k2 hk2
      exact ⟨writesFor_snoc_other k2 _ _ (by simp [Ne.symm hk2]),
        KindMap.get_set_ne _ _ _ _ hk2, KindMap.get_set_ne _ _ _ _ hk2⟩
  · have hlt : (st.currentBatches.get k).length + 1 < B := by omega
    rw [pushAndMaybeFlush_push B k frag st hlt]
    constructor
    · refine ⟨?_, ?_, hkv.sizes, hkv.idx⟩
      · rw [KindMap.get_set_same, ← List.append_assoc, hkv.joined]
      · simp only [KindMap.get_set_same, List.length_append, List.length_singleton]
        omega
    · intro k2 hk2
      exact ⟨rfl, KindMap.get_set_ne _ _ _ _ hk2, rfl⟩

/-! Processing clean subtrees: while collecting an element, a clean subtree
is appended verbatim (serialised); while idle, it is ignored entirely. -/

mutual

theorem processClean_in (it : String) (B : Nat) (st : LoopState) (f : Frag)
    (hin : st.inElement = true) (hd : 1 ≤ st.elementDepth) (hc : cleanF f = true) :
    processEvents it B (eventsF f) st =
      { st with currentElement := st.currentElement ++ serializeF f } := by
  cases f with
  | elem n a cs =>
      simp only [cleanF, Bool.and_eq_true, Bool.not_eq_true'] at hc
      obtain ⟨⟨hkn, hcn⟩, hcl⟩ := hc
      rw [show eventsF (Frag.elem n a cs) =
        XmlEvent.startE n a :: (eventsL cs ++ [XmlEvent.endE n]) from rfl]
      rw [processEvents_cons, step_start_other_in it B st n a hkn (by simp [hcn]) hin,
        processEvents_append]
      rw [processCleanL_in it B _ cs (by exact hin)
        (by exact Nat.le_add_left 1 st.elementDepth) hcl]
      rw [processEvents_single,
        step_end_other_in it B _ n hkn (by simp [hcn]) (by exact hin)
          (by exact Nat.lt_succ_of_le hd)]
      simp [serializeF, String.append_assoc]
  | selfClose n a =>
      simp only [cleanF, Bool.and_eq_true, Bool.not_eq_true'] at hc
      rw [show eventsF (Frag.selfClose n a) = [XmlEvent.emptyE n a] from rfl,
        processEvents_single, step_empty_other_in it B st n a hc.1 hin]
      rfl
  | txt s =>
      rw [show eventsF (Frag.txt s) = [XmlEvent.textE s] from rfl,
        processEvents_single, step_text_in it B st s hin]
      rfl
  | cdataF s =>
      rw [show eventsF (Frag.cdataF s) = [XmlEvent.cdataE s] from rfl,
        processEvents_single, step_cdata_in it B st s hin]
      simp [serializeF, String.append_assoc]

theorem processCleanL_in (it : String) (B : Nat) (st : LoopState) (fs : List Frag)
    (hin : st.inElement = true) (hd : 1 ≤ st.elementDepth) (hc : cleanL fs = true) :
    processEvents it B (eventsL fs) st =
      { st with currentElement := st.currentElement ++ serializeL fs } := by
  cases fs with
  | nil =>
      show st = _
      simp [serializeL]
  | cons f fs2 =>
      simp only [cleanL, Bool.and_eq_true] at hc
      rw [show eventsL (f :: fs2) = eventsF f ++ eventsL fs2 from rfl, processEvents_append,
        processClean_in it B st f hin hd hc.1]
      rw [processCleanL_in it B _ fs2 (by exact hin) (by exact hd) hc.2]
      simp [serializeL, String.append_assoc]

end

mutual

theorem processClean_idle (it : String) (B : Nat) (st : LoopState) (f : Frag)
    (hin : st.inElement = false) (hc : cleanF f = true) :
    processEvents it B (eventsF f) st = st := by
  cases f with
  | elem n a cs =>
      simp only [cleanF, Bool.and_eq_true, Bool.not_eq_true'] at hc
      obtain ⟨⟨hkn, hcn⟩, hcl⟩ := hc
      rw [show eventsF (Frag.elem n a cs) =
        XmlEvent.startE n a :: (eventsL cs ++ [XmlEvent.endE n]) from rfl]
      rw [processEvents_cons, step_start_other_idle it B st n a hkn (by simp [hcn]) hin,
        processEvents_append]
      rw [processCleanL_idle it B st cs hin hcl]
      rw [processEvents_single, step_end_other_idle it B st n hkn (by simp [hcn]) hin]
  | selfClose n a =>
      simp only [cleanF, Bool.and_eq_true, Bool.not_eq_true'] at hc
      rw [show eventsF (Frag.selfClose n a) = [XmlEvent.emptyE n a] from rfl,
        processEvents_single, step_empty_other_idle it B st n a hc.1 hin]
  | txt s =>
      rw [show eventsF (Frag.txt s) = [XmlEvent.textE s] from rfl,
        processEvents_single, step_text_idle it B st s hin]
  | cdataF s =>
      rw [show eventsF (Frag.cdataF s) = [XmlEvent.cdataE s] from rfl,
        processEvents_single, step_cdata_idle it B st s hin]

theorem processCleanL_idle (it : String) (B : Nat) (st : LoopState) (fs : List Frag)
    (hin : st.inElement = false) (hc : cleanL fs = true) :
    processEvents it B (eventsL fs) st = st := by
  cases fs with
  | nil => rfl
  | cons f fs2 =>
      simp only [cleanL, Bool.and_eq_true] at hc
      rw [show eventsL (f :: fs2) = eventsF f ++ eventsL fs2 from rfl, processEvents_append,
        processClean_idle it B st f hin hc.1]
      exact processCleanL_idle it B st fs2 hin hc.2

end

/-! Processing one complete kind element from any machine state: the element
is serialised, wrapped in the container in scope, and pushed. -/

theorem pushAndMaybeFlush_override (B : Nat) (k : Kind) (frag : String) (st : LoopState) :
    { pushAndMaybeFlush B k frag st with inElement := false, elementDepth := 0 } =
      pushAndMaybeFlush B k frag { st with inElement := false, elementDepth := 0 } := by
  by_cases h : B ≤ (st.currentBatches.get k).length + 1
  · rw [pushAndMaybeFlush_flush B k frag st h,
      pushAndMaybeFlush_flush B k frag { st with inElement := false, elementDepth := 0 } h]
  · have hlt : (st.currentBatches.get k).length + 1 < B := by omega
    rw [pushAndMaybeFlush_push B k frag st hlt,
      pushAndMaybeFlush_push B k frag { st with inElement := false, elementDepth := 0 } hlt]

theorem processKindElem (it : String) (B : Nat) (st : LoopState) (n : String)
    (a : List (String × String)) (cs : List Frag) (k : Kind)
    (hk : kindOfName n = some k) (hcl : cleanL cs = true) :
    processEvents it B (eventsF (.elem n a cs)) st =
      pushAndMaybeFlush B k (wrapC it st.deltaContainer (serializeF (.elem n a cs)))
        { st with
          elementType := k, inElement := false, elementDepth := 0,
          currentElement := wrapC it st.deltaContainer (serializeF (.elem n a cs)) } := by
  rw [show eventsF (Frag.elem n a cs) =
    XmlEvent.startE n a :: (eventsL cs ++ [XmlEvent.endE n]) from rfl]
  rw [processEvents_cons, step_start_kind it B st n a k hk, processEvents_append]
  rw [processCleanL_in it B _ cs (by exact rfl) (by exact Nat.le_refl 1) hcl]
  rw [processEvents_single, step_end_kind_d1 it B _ n k hk (by exact rfl) (by exact rfl)]
  rw [pushAndMaybeFlush_override]
  dsimp only
  by_cases hcond : it = "delta" ∧ st.deltaContainer ≠ ""
  · simp [hcond, wrapC, serializeF, String.append_assoc]
  · simp [hcond, wrapC, serializeF, String.append_assoc]

theorem processKindSelfClose (it : String) (B : Nat) (st : LoopState) (n : String)
    (a : List (String × String)) (k : Kind) (hk : kindOfName n = some k) :
    processEvents it B (eventsF (.selfClose n a)) st =
      pushAndMaybeFlush B k (wrapC it st.deltaContainer (selfCloseStr n a))
        { st with
          elementType := k,
          currentElement := wrapC it st.deltaContainer (selfCloseStr n a) } := by
  rw [show eventsF (Frag.selfClose n a) = [XmlEvent.emptyE n a] from rfl,
    processEvents_single, step_empty_kind it B st n a k hk]

/-! Invariant preservation for one well-formed item and for item lists. -/

theorem processItemNC_inv (it : String) (B : Nat) (hB : 0 < B) (cont : String) (f : Frag)
    (hwf : wfItem it false f = true) (st : LoopState) (done : Kind → List String)
    (hin : st.inElement = false) (hd : st.elementDepth = 0)
    (hcont : st.deltaContainer = cont)
    (hkinv : ∀ k, KindInv B (writesFor k st.writes) (st.currentBatches.get k)
      (st.batchCounts.get k) (done k)) :
    (processEvents it B (eventsF f) st).inElement = false ∧
    (processEvents it B (eventsF f) st).elementDepth = 0 ∧
    (processEvents it B (eventsF f) st).deltaContainer = cont ∧
    ∀ k, KindInv B (writesFor k (processEvents it B (eventsF f) st).writes)
      ((processEvents it B (eventsF f) st).currentBatches.get k)
      ((processEvents it B (eventsF f) st).batchCounts.get k)
      (done k ++ extractF it k cont f) := by
  subst hcont
  cases f with
  | elem n a cs =>
      by_cases hkn : isKindName n = true
      · obtain ⟨k0, hk0⟩ := Option.isSome_iff_exists.mp (by
          unfold isKindName at hkn; exact hkn)
        have hcl : cleanL cs = true := by
          unfold wfItem at hwf
          rwa [if_pos hkn] at hwf
        have hname : n = k0.name := name_of_kindOfName hk0
        rw [processKindElem it B st n a cs k0 hk0 hcl]
        refine ⟨?_, ?_, ?_, ?_⟩

        · rw [pushAndMaybeFlush_inElement]
        · rw [pushAndMaybeFlush_elementDepth]
        · rw [pushAndMaybeFlush_deltaContainer]
        · intro k
          by_cases hkk : k = k0
          · subst hkk
            rw [show extractF it k st.deltaContainer (Frag.elem n a cs) =
              [wrapC it st.deltaContainer (serializeF (Frag.elem n a cs))] from by
                unfold extractF
                rw [if_pos hname]]
            exact (pushAndMaybeFlush_inv B hB k _ _ _ (by exact hkinv k)).1
          · have hne : n ≠ k.name := by
              rw [hname]
              intro hh
              exact hkk (Kind.name_inj hh).symm
            have hext : extractF it k st.deltaContainer (Frag.elem n a cs) = [] := by
              unfold extractF
              rw [if_neg hne, if_neg (by simp [hname, kind_not_container])]
            have h2 := (pushAndMaybeFlush_inv B hB k0
              (wrapC it st.deltaContainer (serializeF (Frag.elem n a cs)))
              { st with
                elementType := k0, inElement := false, elementDepth := 0,
                currentElement := wrapC it st.deltaContainer (serializeF (Frag.elem n a cs)) }
              (done k0) (by exact hkinv k0)).2 k hkk
            rw [hext, List.append_nil, h2.1, h2.2.1, h2.2.2]
            exact hkinv k
      · by_cases hcn : isContainerName n = true
        · exfalso
          unfold wfItem at hwf
          rw [if_neg (by simp [hkn]), if_pos hcn] at hwf
          simp at hwf
        · have hkf : isKindName n = false := Bool.eq_false_iff.mpr hkn
          have hcf : isContainerName n = false := Bool.eq_false_iff.mpr hcn
          have hcltrue : cleanL cs = true := by
            unfold wfItem at hwf
            rwa [if_neg (by simp [hkn]), if_neg (by simp [hcn])] at hwf
          have hclean : cleanF (Frag.elem n a cs) = true := by
            unfold cleanF
            simp [hkf, hcf, hcltrue]
          rw [processClean_idle it B st _ hin hclean]
          refine ⟨hin, hd, rfl, fun k => ?_⟩
          have hext : extractF it k st.deltaContainer (Frag.elem n a cs) = [] := by
            unfold extractF
            rw [if_neg (isKindName_false_ne_name k hkf), if_neg (by simp [hcf])]
          rw [hext, List.append_nil]
          exact hkinv k
  | selfClose n a =>
      by_cases hkn : isKindName n = true
      · obtain ⟨k0, hk0⟩ := Option.isSome_iff_exists.mp (by
          unfold isKindName at hkn; exact hkn)
        have hname : n = k0.name := name_of_kindOfName hk0
        rw [processKindSelfClose it B st n a k0 hk0]
        refine ⟨?_, ?_, ?_, ?_⟩
        · rw [pushAndMaybeFlush_inElement]; exact hin
        · rw [pushAndMaybeFlush_elementDepth]; exact hd
        · rw [pushAndMaybeFlush_deltaContainer]
        · intro k
          by_cases hkk : k = k0
          · subst hkk
            rw [show extractF it k st.deltaContainer (Frag.selfClose n a) =
              [wrapC it st.deltaContainer (selfCloseStr n a)] from by
                unfold extractF
                rw [if_pos hname]]
            exact (pushAndMaybeFlush_inv B hB k _ _ _ (by exact hkinv k)).1
          · have hne : n ≠ k.name := by
              rw [hname]
              intro hh
              exact hkk (Kind.name_inj hh).symm
            have hext : extractF it k st.deltaContainer (Frag.selfClose n a) = [] := by
              unfold extractF
              rw [if_neg hne]
            have h2 := (pushAndMaybeFlush_inv B hB k0
              (wrapC it st.deltaContainer (selfCloseStr n a))
              { st with
                elementType := k0,
                currentElement := wrapC it st.deltaContainer (selfCloseStr n a) }
              (done k0) (by exact hkinv k0)).2 k hkk
            rw [hext, List.append_nil, h2.1, h2.2.1, h2.2.2]
            exact hkinv k
      · have hkf : isKindName n = false := Bool.eq_false_iff.mpr hkn
        rw [show eventsF (Frag.selfClose n a) = [XmlEvent.emptyE n a] from rfl,
          processEvents_single, step_empty_other_idle it B st n a hkf hin]
        refine ⟨hin, hd, rfl, fun k => ?_⟩
        have hext : extractF it k st.deltaContainer (Frag.selfClose n a) = [] := by
          unfold extractF
          rw [if_neg (isKindName_false_ne_name k hkf)]
        rw [hext, List.append_nil]
        exact hkinv k
  | txt s =>
      rw [show eventsF (Frag.txt s) = [XmlEvent.textE s] from rfl,
        processEvents_single, step_text_idle it B st s hin]
      refine ⟨hin, hd, rfl, fun k => ?_⟩
      rw [show extractF it k st.deltaContainer (Frag.txt s) = [] from rfl, List.append_nil]
      exact hkinv k
  | cdataF s =>
      rw [show eventsF (Frag.cdataF s) = [XmlEvent.cdataE s] from rfl,
        processEvents_single, step_cdata_idle it B st s hin]
      refine ⟨hin, hd, rfl, fun k => ?_⟩
      rw [show extractF it k st.deltaContainer (Frag.cdataF s) = [] from rfl,
        List.append_nil]
      exact hkinv k

theorem processItemsNC_inv (it : String) (B : Nat) (hB : 0 < B) (cont : String)
    (fs : List Frag) (hwf : wfItems it false fs = true) (st : LoopState)
    (done : Kind → List String) (hin : st.inElement = false) (hd : st.elementDepth = 0)
    (hcont : st.deltaContainer = cont)
    (hkinv : ∀ k, KindInv B (writesFor k st.writes) (st.currentBatches.get k)
      (st.batchCounts.get k) (done k)) :
    (processEvents it B (eventsL fs) st).inElement = false ∧
    (processEvents it B (eventsL fs) st).elementDepth = 0 ∧
    (processEvents it B (eventsL fs) st).deltaContainer = cont ∧
    ∀ k, KindInv B (writesFor k (processEvents it B (eventsL fs) st).writes)
      ((processEvents it B (eventsL fs) st).currentBatches.get k)
      ((processEvents it B (eventsL fs) st).batchCounts.get k)
      (done k ++ extractL it k cont fs) := by
  induction fs generalizing st done with
  | nil =>
      refine ⟨hin, hd, hcont, fun k => ?_⟩
      rw [show extractL it k cont [] = [] from rfl, List.append_nil]
      exact hkinv k
  | cons f fs2 ih =>
      simp only [wfItems, Bool.and_eq_true] at hwf
      rw [show eventsL (f :: fs2) = eventsF f ++ eventsL fs2 from rfl, processEvents_append]
      obtain ⟨h1, h2, h3, h4⟩ :=
        processItemNC_inv it B hB cont f hwf.1 st done hin hd hcont hkinv
      obtain ⟨g1, g2, g3, g4⟩ :=
        ih hwf.2 _ (fun k => done k ++ extractF it k cont f) h1 h2 h3 h4
      refine ⟨g1, g2, g3, fun k => ?_⟩
      rw [show extractL it k cont (f :: fs2) =
        extractF it k cont f ++ extractL it k cont fs2 from rfl, ← List.append_assoc]
      exact g4 k

theorem processItemTop_inv (it : String) (B : Nat) (hB : 0 < B) (f : Frag)
    (hwf : wfItem it true f = true) (st : LoopState) (done : Kind → List String)
    (hin : st.inElement = false) (hd : st.elementDepth = 0)
    (hcont : st.deltaContainer = "")
    (hkinv : ∀ k, KindInv B (writesFor k st.writes) (st.currentBatches.get k)
      (st.batchCounts.get k) (done k)) :
    (processEvents it B (eventsF f) st).inElement = false ∧
    (processEvents it B (eventsF f) st).elementDepth = 0 ∧
    (processEvents it B (eventsF f) st).deltaContainer = "" ∧
    ∀ k, KindInv B (writesFor k (processEvents it B (eventsF f) st).writes)
      ((processEvents it B (eventsF f) st).currentBatches.get k)
      ((processEvents it B (eventsF f) st).batchCounts.get k)
      (done k ++ extractF it k "" f) := by
  cases f with
  | elem n a cs =>
      by_cases hkn : isKindName n = true
      · have hwf2 : wfItem it false (Frag.elem n a cs) = true := by
          unfold wfItem at hwf ⊢
          rw [if_pos hkn] at hwf
          rw [if_pos hkn]
          exact hwf
        exact processItemNC_inv it B hB "" _ hwf2 st done hin hd hcont hkinv
      · by_cases hcn : isContainerName n = true
        · unfold wfItem at hwf
          rw [if_neg (by simp [hkn]), if_pos hcn] at hwf
          simp only [Bool.and_eq_true, decide_eq_true_eq] at hwf
          obtain ⟨⟨hdelta, -⟩, hcs⟩ := hwf
          rw [show eventsF (Frag.elem n a cs) =
            XmlEvent.startE n a :: (eventsL cs ++ [XmlEvent.endE n]) from rfl]
          rw [processEvents_cons,
            step_start_container it B st n a (Bool.eq_false_iff.mpr hkn) hcn hdelta,
            processEvents_append]
          obtain ⟨h1, h2, h3, h4⟩ := processItemsNC_inv it B hB n cs hcs
            { st with deltaContainer := n } done (by exact hin) (by exact hd) rfl
            (by exact hkinv)
          rw [processEvents_single,
            step_end_container it B _ n (Bool.eq_false_iff.mpr hkn) hcn hdelta]
          refine ⟨by exact h1, by exact h2, rfl, fun k => ?_⟩
          have hext : extractF it k "" (Frag.elem n a cs) = extractL it k n cs := by
            unfold extractF
            rw [if_neg (isKindName_false_ne_name k (Bool.eq_false_iff.mpr hkn)),
              if_pos ⟨by rw [hcn], hdelta⟩]
          rw [hext]
          exact h4 k
        · have hwf2 : wfItem it false (Frag.elem n a cs) = true := by
            unfold wfItem at hwf ⊢
            rw [if_neg (by simp [hkn]), if_neg (by simp [hcn])] at hwf
            rw [if_neg (by simp [hkn]), if_neg (by simp [hcn])]
            exact hwf
          exact processItemNC_inv it B hB "" _ hwf2 st done hin hd hcont hkinv
  | selfClose n a =>
      exact processItemNC_inv it B hB "" _ (by exact hwf) st done hin hd hcont hkinv
  | txt s =>
      exact processItemNC_inv it B hB "" _ (by exact hwf) st done hin hd hcont hkinv
  | cdataF s =>
      exact processItemNC_inv it B hB "" _ (by exact hwf) st done hin hd hcont hkinv

theorem processItemsTop_inv (it : String) (B : Nat) (hB : 0 < B) (fs : List Frag)
    (hwf : wfItems it true fs = true) (st : LoopState) (done : Kind → List String)
    (hin : st.inElement = false) (hd : st.elementDepth = 0)
    (hcont : st.deltaContainer = "")
    (hkinv : ∀ k, KindInv B (writesFor k st.writes) (st.currentBatches.get k)
      (st.batchCounts.get k) (done k)) :
    (processEvents it B (eventsL fs) st).inElement = false ∧
    (processEvents it B (eventsL fs) st).elementDepth = 0 ∧
    (processEvents it B (eventsL fs) st).deltaContainer = "" ∧
    ∀ k, KindInv B (writesFor k (processEvents it B (eventsL fs) st).writes)
      ((processEvents it B (eventsL fs) st).currentBatches.get k)
      ((processEvents it B (eventsL fs) st).batchCounts.get k)
      (done k ++ extractL it k "" fs) := by
  induction fs generalizing st done with
  | nil =>
      refine ⟨hin, hd, hcont, fun k => ?_⟩
      rw [show extractL it k "" [] = [] from rfl, List.append_nil]
      exact hkinv k
  | cons f fs2 ih =>
      simp only [wfItems, Bool.and_eq_true] at hwf
      rw [show eventsL (f :: fs2) = eventsF f ++ eventsL fs2 from rfl, processEvents_append]
      obtain ⟨h1, h2, h3, h4⟩ :=
        processItemTop_inv it B hB f hwf.1 st done hin hd hcont hkinv
      obtain ⟨g1, g2, g3, g4⟩ :=
        ih hwf.2 _ (fun k => done k ++ extractF it k "" f) h1 h2 h3 h4
      refine ⟨g1, g2, g3, fun k => ?_⟩
      rw [show extractL it k "" (f :: fs2) =
        extractF it k "" f ++ extractL it k "" fs2 from rfl, ← List.append_assoc]
      exact g4 k

/-! Run-level lemmas: root capture, whole-loop invariant, finalisation. -/

theorem root_name_not_kind {rootName : String}
    (hroot : rootName = "osm" ∨ rootName = "osmChange") : isKindName rootName = false := by
  rcases hroot with h | h <;> subst h <;> rfl

theorem root_name_not_container {rootName : String}
    (hroot : rootName = "osm" ∨ rootName = "osmChange") :
    isContainerName rootName = false := by
  rcases hroot with h | h <;> subst h <;> rfl

theorem parse_root_doc (rootName : String) (rootAttrs : List (String × String))
    (items : List Frag) (hroot : rootName = "osm" ∨ rootName = "osmChange") :
    parse_root_element (eventsF (.elem rootName rootAttrs items)) =
      .ok ⟨rootName, updateGenerator (ofAttrs rootAttrs)⟩ := by
  rw [show eventsF (Frag.elem rootName rootAttrs items) =
    XmlEvent.startE rootName rootAttrs :: (eventsL items ++ [XmlEvent.endE rootName])
    from rfl]
  unfold parse_root_element
  rw [if_pos hroot]

theorem batch_osm_xml_core_ok (it : String) (B : Nat) (fname : String)
    (rootName : String) (rootAttrs : List (String × String)) (items : List Frag)
    (hroot : rootName = "osm" ∨ rootName = "osmChange") :
    batch_osm_xml_core it B fname (.elem rootName rootAttrs items) =
      .ok (finalize fname ⟨rootName, updateGenerator (ofAttrs rootAttrs)⟩
        (processEvents it B (eventsF (.elem rootName rootAttrs items)) initState)) := by
  unfold batch_osm_xml_core
  rw [parse_root_doc rootName rootAttrs items hroot]

theorem initState_kindInv (B : Nat) (hB : 0 < B) :
    ∀ k : Kind, KindInv B (writesFor k initState.writes) (initState.currentBatches.get k)
      (initState.batchCounts.get k) [] := by
  intro k
  refine ⟨?_, ?_, ?_, ?_⟩
  · cases k <;> rfl
  · cases k <;> exact hB
  · intro w hw
    simp [writesFor, initState] at hw
  · cases k <;> rfl

theorem runLoop_inv (it : String) (B : Nat) (hB : 0 < B) (rootName : String)
    (rootAttrs : List (String × String)) (items : List Frag)
    (hroot : rootName = "osm" ∨ rootName = "osmChange")
    (hwf : wfItems it true items = true) :
    (processEvents it B (eventsF (.elem rootName rootAttrs items)) initState).inElement
      = false ∧
    (processEvents it B (eventsF (.elem rootName rootAttrs items)) initState).elementDepth
      = 0 ∧
    (processEvents it B (eventsF (.elem rootName rootAttrs items))
      initState).deltaContainer = "" ∧
    ∀ k, KindInv B
      (writesFor k (processEvents it B (eventsF (.elem rootName rootAttrs items))
        initState).writes)
      ((processEvents it B (eventsF (.elem rootName rootAttrs items))
        initState).currentBatches.get k)
      ((processEvents it B (eventsF (.elem rootName rootAttrs items))
        initState).batchCounts.get k)
      (extractL it k "" items) := by
  rw [show eventsF (Frag.elem rootName rootAttrs items) =
    XmlEvent.startE rootName rootAttrs :: (eventsL items ++ [XmlEvent.endE rootName])
    from rfl]
  rw [processEvents_cons,
    step_start_other_idle it B initState rootName rootAttrs (root_name_not_kind hroot)
      (by simp [root_name_not_container hroot]) rfl,
    processEvents_append]
  obtain ⟨h1, h2, h3, h4⟩ := processItemsTop_inv it B hB items hwf initState
    (fun _ => []) rfl rfl rfl (initState_kindInv B hB)
  rw [processEvents_single,
    step_end_other_idle it B _ rootName (root_name_not_kind hroot)
      (by simp [root_name_not_container hroot]) (by exact h1)]
  refine ⟨h1, h2, h3, fun k => ?_⟩
  have := h4 k
  rwa [List.nil_append] at this

theorem finalizeKind_writes (st : LoopState) (k : Kind) :
    (finalizeKind st k).writes = st.writes ++
      (if st.currentBatches.get k = [] then []
       else [⟨k, st.batchCounts.get k, st.currentBatches.get k⟩]) := by
  unfold finalizeKind
  by_cases h : st.currentBatches.get k = []
  · rw [if_pos h, if_pos h, List.append_nil]
  · rw [if_neg h, if_neg h]

theorem finalizeKind_other (st : LoopState) (k k2 : Kind) (h : k2 ≠ k) :
    writesFor k2 (finalizeKind st k).writes = writesFor k2 st.writes ∧
    (finalizeKind st k).currentBatches.get k2 = st.currentBatches.get k2 ∧
    (finalizeKind st k).batchCounts.get k2 = st.batchCounts.get k2 := by
  unfold finalizeKind
  by_cases hb : st.currentBatches.get k = []
  · rw [if_pos hb]
    exact ⟨rfl, rfl, rfl⟩
  · rw [if_neg hb]
    exact ⟨writesFor_snoc_other k2 _ _ (by simp [Ne.symm h]), rfl,
      KindMap.get_set_ne _ _ _ _ h⟩

theorem finalizeKind_inv (B : Nat) (hB : 0 < B) (st : LoopState) (k : Kind)
    (done : List String)
    (hkv : KindInv B (writesFor k st.writes) (st.currentBatches.get k)
      (st.batchCounts.get k) done) :
    ((writesFor k (finalizeKind st k).writes).map (fun w => w.elements)).flatten = done ∧
    (writesFor k (finalizeKind st k).writes).map (fun w => w.index) =
      List.range ((finalizeKind st k).batchCounts.get k) ∧
    (finalizeKind st k).batchCounts.get k =
      (writesFor k (finalizeKind st k).writes).length ∧
    (∀ w ∈ (writesFor k (finalizeKind st k).writes).dropLast, w.elements.length = B) ∧
    (∀ w ∈ writesFor k (finalizeKind st k).writes,
      1 ≤ w.elements.length ∧ w.elements.length ≤ B) := by
  have hcnt : st.batchCounts.get k = (writesFor k st.writes).length := by
    have hlen := congrArg List.length hkv.idx
    simpa using hlen.symm
  unfold finalizeKind
  by_cases hb : st.currentBatches.get k = []
  · rw [if_pos hb]
    have hj := hkv.joined
    rw [hb, List.append_nil] at hj
    refine ⟨hj, ?_, hcnt, ?_, ?_⟩
    · exact hkv.idx
    · intro w hw
      exact hkv.sizes w (List.dropLast_subset _ hw)
    · intro w hw
      have := hkv.sizes w hw
      omega
  · rw [if_neg hb]
    have hsnoc : writesFor k (st.writes ++ [⟨k, st.batchCounts.get k,
        st.currentBatches.get k⟩]) = writesFor k st.writes ++
        [⟨k, st.batchCounts.get k, st.currentBatches.get k⟩] :=
      writesFor_snoc_same k _ _ rfl
    have hbufpos : 0 < (st.currentBatches.get k).length := List.length_pos.mpr hb
    refine ⟨?_, ?_, ?_, ?_, ?_⟩
    · rw [hsnoc]
      simp only [List.map_append, List.map_cons, List.map_nil, List.flatten_append,
        List.flatten_cons, List.flatten_nil, List.append_nil]
      exact hkv.joined
    · rw [hsnoc, KindMap.get_set_same]
      simp only [List.map_append, List.map_cons, List.map_nil]
      rw [hkv.idx, List.range_succ]
    · rw [hsnoc, KindMap.get_set_same]
      simp only [List.length_append, List.length_singleton]
      omega
    · intro w hw
      rw [hsnoc, List.dropLast_concat] at hw
      exact hkv.sizes w hw
    · intro w hw
      rw [hsnoc] at hw
      rcases List.mem_append.mp hw with hw | hw
      · have := hkv.sizes w hw
        omega
      · rcases List.mem_singleton.mp hw with rfl
        have hlt := hkv.bufLt
        refine ⟨hbufpos, ?_⟩
        show (st.currentBatches.get k).length ≤ B
        omega

theorem finalize_eq (fname : String) (root : RootElementInfo) (st : LoopState) :
    finalize fname root st =
      ⟨root,
       (finalizeKind (finalizeKind (finalizeKind st .node) .way) .relation).writes,
       [(Kind.node, completionMessage fname
          ((finalizeKind st .node).batchCounts.get .node)),
        (Kind.way, completionMessage fname
          ((finalizeKind (finalizeKind st .node) .way).batchCounts.get .way)),
        (Kind.relation, completionMessage fname
          ((finalizeKind (finalizeKind (finalizeKind st .node) .way)
            .relation).batchCounts.get .relation))]⟩ := rfl

theorem finalize_inv (B : Nat) (hB : 0 < B) (fname : String) (root : RootElementInfo)
    (st : LoopState) (done : Kind → List String)
    (hkinv : ∀ k, KindInv B (writesFor k st.writes) (st.currentBatches.get k)
      (st.batchCounts.get k) (done k)) :
    (finalize fname root st).root = root ∧
    (∀ k, ((writesFor k (finalize fname root st).writes).map
      (fun w => w.elements)).flatten = done k) ∧
    (∀ k, (writesFor k (finalize fname root st).writes).map (fun w => w.index) =
      List.range (writesFor k (finalize fname root st).writes).length) ∧
    (∀ k, ∀ w ∈ (writesFor k (finalize fname root st).writes).dropLast,
      w.elements.length = B) ∧
    (∀ k, ∀ w ∈ writesFor k (finalize fname root st).writes,
      1 ≤ w.elements.length ∧ w.elements.length ≤ B) ∧
    (finalize fname root st).completions =
      [(Kind.node, completionMessage fname
         (writesFor .node (finalize fname root st).writes).length),
       (Kind.way, completionMessage fname
         (writesFor .way (finalize fname root st).writes).length),
       (Kind.relation, completionMessage fname
         (writesFor .relation (finalize fname root st).writes).length)] ∧
    (∀ k, writesFor k (finalize fname root st).writes = writesFor k st.writes ++
      (if st.currentBatches.get k = [] then []
       else [⟨k, st.batchCounts.get k, st.currentBatches.get k⟩])) := by
  have inv_node := finalizeKind_inv B hB st .node (done .node) (hkinv .node)
  have hkv_way : KindInv B (writesFor .way (finalizeKind st .node).writes)
      ((finalizeKind st .node).currentBatches.get .way)
      ((finalizeKind st .node).batchCounts.get .way) (done .way) := by
    obtain ⟨e1, e2, e3⟩ := finalizeKind_other st .node .way (by decide)
    rw [e1, e2, e3]
    exact hkinv .way
  have inv_way := finalizeKind_inv B hB (finalizeKind st .node) .way (done .way) hkv_way
  have hkv_rel : KindInv B
      (writesFor .relation (finalizeKind (finalizeKind st .node) .way).writes)
      ((finalizeKind (finalizeKind st .node) .way).currentBatches.get .relation)
      ((finalizeKind (finalizeKind st .node) .way).batchCounts.get .relation)
      (done .relation) := by
    obtain ⟨e1, e2, e3⟩ := finalizeKind_other (finalizeKind st .node) .way .relation
      (by decide)
    rw [e1, e2, e3]
    obtain ⟨f1, f2, f3⟩ := finalizeKind_other st .node .relation (by decide)
    rw [f1, f2, f3]
    exact hkinv .relation
  have inv_rel := finalizeKind_inv B hB (finalizeKind (finalizeKind st .node) .way)
    .relation (done .relation) hkv_rel
  have pres_node23 : writesFor .node (finalizeKind (finalizeKind (finalizeKind st .node)
      .way) .relation).writes = writesFor .node (finalizeKind st .node).writes := by
    rw [(finalizeKind_other (finalizeKind (finalizeKind st .node) .way) .relation .node
      (by decide)).1]
    rw [(finalizeKind_other (finalizeKind st .node) .way .node (by decide)).1]
  have pres_way3 : writesFor .way (finalizeKind (finalizeKind (finalizeKind st .node)
      .way) .relation).writes = writesFor .way (finalizeKind (finalizeKind st .node)
      .way).writes := by
    rw [(finalizeKind_other (finalizeKind (finalizeKind st .node) .way) .relation .way
      (by decide)).1]
  rw [finalize_eq]
  refine ⟨rfl, ?_, ?_, ?_, ?_, ?_, ?_⟩
  · intro k
    cases k
    · show (List.map (fun w => w.elements) (writesFor Kind.node (finalizeKind
        (finalizeKind (finalizeKind st .node) .way) .relation).writes)).flatten =
        done Kind.node
      rw [pres_node23]
      exact inv_node.1
    · show (List.map (fun w => w.elements) (writesFor Kind.way (finalizeKind
        (finalizeKind (finalizeKind st .node) .way) .relation).writes)).flatten =
        done Kind.way
      rw [pres_way3]
      exact inv_way.1
    · exact inv_rel.1
  · intro k
    cases k
    · show (writesFor Kind.node (finalizeKind (finalizeKind (finalizeKind st .node)
        .way) .relation).writes).map (fun w => w.index) = _
      rw [pres_node23, inv_node.2.1, inv_node.2.2.1]
    · show (writesFor Kind.way (finalizeKind (finalizeKind (finalizeKind st .node)
        .way) .relation).writes).map (fun w => w.index) = _
      rw [pres_way3, inv_way.2.1, inv_way.2.2.1]
    · rw [inv_rel.2.1, inv_rel.2.2.1]
  · intro k
    cases k
    · show ∀ w ∈ (writesFor Kind.node (finalizeKind (finalizeKind (finalizeKind st
        .node) .way) .relation).writes).dropLast, w.elements.length = B
      rw [pres_node23]
      exact inv_node.2.2.2.1
    · show ∀ w ∈ (writesFor Kind.way (finalizeKind (finalizeKind (finalizeKind st
        .node) .way) .relation).writes).dropLast, w.elements.length = B
      rw [pres_way3]
      exact inv_way.2.2.2.1
    · exact inv_rel.2.2.2.1
  · intro k
    cases k
    · show ∀ w ∈ writesFor Kind.node (finalizeKind (finalizeKind (finalizeKind st
        .node) .way) .relation).writes, 1 ≤ w.elements.length ∧ w.elements.length ≤ B
      rw [pres_node23]
      exact inv_node.2.2.2.2
    · show ∀ w ∈ writesFor Kind.way (finalizeKind (finalizeKind (finalizeKind st
        .node) .way) .relation).writes, 1 ≤ w.elements.length ∧ w.elements.length ≤ B
      rw [pres_way3]
      exact inv_way.2.2.2.2
    · exact inv_rel.2.2.2.2
  · show _ = [(Kind.node, completionMessage fname (writesFor Kind.node (finalizeKind
      (finalizeKind (finalizeKind st .node) .way) .relation).writes).length),
      (Kind.way, completionMessage fname (writesFor Kind.way (finalizeKind
        (finalizeKind (finalizeKind st .node) .way) .relation).writes).length),
      (Kind.relation, completionMessage fname (writesFor Kind.relation (finalizeKind
        (finalizeKind (finalizeKind st .node) .way) .relation).writes).length)]
    rw [pres_node23, pres_way3, ← inv_node.2.2.1, ← inv_way.2.2.1, ← inv_rel.2.2.1]
  · intro k
    have hflush : ∀ (st0 : LoopState) (k0 : Kind),
        writesFor k0 (finalizeKind st0 k0).writes = writesFor k0 st0.writes ++
          (if st0.currentBatches.get k0 = [] then []
           else [⟨k0, st0.batchCounts.get k0, st0.currentBatches.get k0⟩]) := by
      intro st0 k0
      rw [finalizeKind_writes st0 k0, writesFor_append]
      congr 1
      by_cases hb : st0.currentBatches.get k0 = [] <;> simp [hb, writesFor]
    cases k
    · show writesFor Kind.node (finalizeKind (finalizeKind (finalizeKind st .node)
        .way) .relation).writes = _
      rw [pres_node23, hflush st .node]
    · show writesFor Kind.way (finalizeKind (finalizeKind (finalizeKind st .node)
        .way) .relation).writes = _
      obtain ⟨e1, e2, e3⟩ := finalizeKind_other st .node .way (by decide)
      rw [pres_way3, hflush (finalizeKind st .node) .way, e1, e2, e3]
    · show writesFor Kind.relation (finalizeKind (finalizeKind (finalizeKind st .node)
        .way) .relation).writes = _
      obtain ⟨e1, e2, e3⟩ := finalizeKind_other (finalizeKind st .node) .way .relation
        (by decide)
      obtain ⟨f1, f2, f3⟩ := finalizeKind_other st .node .relation (by decide)
      rw [hflush (finalizeKind (finalizeKind st .node) .way) .relation, e1, e2, e3,
        f1, f2, f3]

/-! Claim theorems for the batch builder. -/

/-- C1: for every well-formed source document and kind `k`, the batch files
written for `k` carry chronologically increasing indices `0, 1, …`, and
concatenating their element fragments in that index order yields exactly the
serialised kind-`k` elements of the source document in document order (each
wrapped in its enclosing change container for delta imports) — the same
sequence, hence the same multiset in the same within-kind order. -/
theorem c1_concat_preserved (it : String) (B : Nat) (hB : 0 < B) (fname : String)
    (rootName : String) (rootAttrs : List (String × String)) (items : List Frag)
    (hroot : rootName = "osm" ∨ rootName = "osmChange")
    (hwf : wfItems it true items = true) (k : Kind) (r : RunResult)
    (hr : batch_osm_xml_core it B fname (.elem rootName rootAttrs items) = .ok r) :
    ((writesFor k r.writes).map (fun w => w.elements)).flatten = extractL it k "" items ∧
    (writesFor k r.writes).map (fun w => w.index) =
      List.range (writesFor k r.writes).length := by
  rw [batch_osm_xml_core_ok it B fname rootName rootAttrs items hroot] at hr
  obtain rfl := Except.ok.inj hr
  obtain ⟨h1, h2, h3, h4⟩ := runLoop_inv it B hB rootName rootAttrs items hroot hwf
  obtain ⟨g1, g2, g3, g4, g5, g6, g7⟩ := finalize_inv B hB fname
    ⟨rootName, updateGenerator (ofAttrs rootAttrs)⟩
    (processEvents it B (eventsF (.elem rootName rootAttrs items)) initState)
    (fun k2 => extractL it k2 "" items) h4
  exact ⟨g2 k, g3 k⟩

/-- Witness for C1 on a one-node full document at batch bound 2. -/
theorem c1_concat_preserved_witness :
    ((writesFor Kind.node (finalize "x.osm" ⟨"osm", updateGenerator (ofAttrs [])⟩
        (processEvents "full" 2
          (eventsF (.elem "osm" [] [Frag.selfClose "node" [("id", "1")]]))
          initState)).writes).map (fun w => w.elements)).flatten =
      extractL "full" Kind.node "" [Frag.selfClose "node" [("id", "1")]] ∧
    (writesFor Kind.node (finalize "x.osm" ⟨"osm", updateGenerator (ofAttrs [])⟩
        (processEvents "full" 2
          (eventsF (.elem "osm" [] [Frag.selfClose "node" [("id", "1")]]))
          initState)).writes).map (fun w => w.index) =
      List.range (writesFor Kind.node (finalize "x.osm"
        ⟨"osm", updateGenerator (ofAttrs [])⟩
        (processEvents "full" 2
          (eventsF (.elem "osm" [] [Frag.selfClose "node" [("id", "1")]]))
          initState)).writes).length :=
  c1_concat_preserved "full" 2 (by norm_num) "x.osm" "osm" []
    [Frag.selfClose "node" [("id", "1")]] (Or.inl rfl) (by decide) Kind.node _ rfl

/-- C2: with the batch bound the program passes (`B = 500` when the import
type is full, `B = 1000` when it is delta), every batch written for a kind
except possibly the last contains exactly `B` top-level elements of that
kind, and every batch (in particular the last) contains between 1 and `B`. -/
theorem c2_batch_size_bound (it : String) (B : Nat)
    (hIB : (it = "full" ∧ B = 500) ∨ (it = "delta" ∧ B = 1000)) (fname : String)
    (rootName : String) (rootAttrs : List (String × String)) (items : List Frag)
    (hroot : rootName = "osm" ∨ rootName = "osmChange")
    (hwf : wfItems it true items = true) (k : Kind) (r : RunResult)
    (hr : batch_osm_xml_core it B fname (.elem rootName rootAttrs items) = .ok r) :
    (∀ w ∈ (writesFor k r.writes).dropLast, w.elements.length = B) ∧
    (∀ w ∈ writesFor k r.writes, 1 ≤ w.elements.length ∧ w.elements.length ≤ B) := by
  have hB : 0 < B := by rcases hIB with ⟨-, h⟩ | ⟨-, h⟩ <;> omega
  rw [batch_osm_xml_core_ok it B fname rootName rootAttrs items hroot] at hr
  obtain rfl := Except.ok.inj hr
  obtain ⟨h1, h2, h3, h4⟩ := runLoop_inv it B hB rootName rootAttrs items hroot hwf
  obtain ⟨g1, g2, g3, g4, g5, g6, g7⟩ := finalize_inv B hB fname
    ⟨rootName, updateGenerator (ofAttrs rootAttrs)⟩
    (processEvents it B (eventsF (.elem rootName rootAttrs items)) initState)
    (fun k2 => extractL it k2 "" items) h4
  exact ⟨g4 k, g5 k⟩

/-- Witness for C2 on a one-node full document at the full-import bound. -/
theorem c2_batch_size_bound_witness :
    (∀ w ∈ (writesFor Kind.node (finalize "x.osm" ⟨"osm", updateGenerator (ofAttrs [])⟩
        (processEvents "full" 500
          (eventsF (.elem "osm" [] [Frag.selfClose "node" [("id", "1")]]))
          initState)).writes).dropLast, w.elements.length = 500) ∧
    (∀ w ∈ writesFor Kind.node (finalize "x.osm" ⟨"osm", updateGenerator (ofAttrs [])⟩
        (processEvents "full" 500
          (eventsF (.elem "osm" [] [Frag.selfClose "node" [("id", "1")]]))
          initState)).writes, 1 ≤ w.elements.length ∧ w.elements.length ≤ 500) :=
  c2_batch_size_bound "full" 500 (Or.inl ⟨rfl, rfl⟩) "x.osm" "osm" []
    [Frag.selfClose "node" [("id", "1")]] (Or.inl rfl) (by decide) Kind.node _ rfl

/-- C6: every batch file of a run is the standalone XML document built by
`write_batch`: XML declaration, then a root element whose tag equals the
source document's root tag, carrying the captured attribute map, then the
element fragments, then the closing root tag; and in the captured map the
`generator` attribute equals the producer token, `"; "`, and the source's
original generator value (empty when absent), while every other attribute
equals the source root's. -/
theorem c6_root_fidelity (it : String) (B : Nat) (fname : String) (rootName : String)
    (rootAttrs : List (String × String)) (items : List Frag)
    (hroot : rootName = "osm" ∨ rootName = "osmChange") (r : RunResult)
    (hr : batch_osm_xml_core it B fname (.elem rootName rootAttrs items) = .ok r) :
    r.root.tag = rootName ∧
    lookupA r.root.attributes "generator" =
      some (producerTag ++ "; " ++ ((lookupA (ofAttrs rootAttrs) "generator").getD "")) ∧
    (∀ key, key ≠ "generator" →
      lookupA r.root.attributes key = lookupA (ofAttrs rootAttrs) key) ∧
    (∀ w ∈ r.writes, write_batch_content r.root w.elements =
      "<?xml version='1.0' encoding='UTF-8'?>\n" ++ "<" ++ rootName
        ++ attrsToString r.root.attributes ++ ">\n"
        ++ (w.elements.foldl (fun acc e => acc ++ e ++ "\n") "")
        ++ "</" ++ rootName ++ ">\n") := by
  rw [batch_osm_xml_core_ok it B fname rootName rootAttrs items hroot] at hr
  obtain rfl := Except.ok.inj hr
  rw [finalize_eq]
  refine ⟨rfl, ?_, ?_, ?_⟩
  · show lookupA (updateGenerator (ofAttrs rootAttrs)) "generator" = _
    unfold updateGenerator
    exact lookupA_insertA_same _ _ _
  · intro key hk
    show lookupA (updateGenerator (ofAttrs rootAttrs)) key = _
    unfold updateGenerator
    exact lookupA_insertA_ne _ _ _ _ hk
  · intro w _
    show write_batch_content ⟨rootName, updateGenerator (ofAttrs rootAttrs)⟩
      w.elements = _
    unfold write_batch_content endTagStr
    simp [String.append_assoc]

/-- Witness for C6 on a concrete document whose root carries a generator. -/
theorem c6_root_fidelity_witness :
    (finalize "x.osm" ⟨"osm", updateGenerator (ofAttrs [("generator", "osmium/1.0")])⟩
      (processEvents "full" 500
        (eventsF (.elem "osm" [("generator", "osmium/1.0")] []))
        initState)).root.tag = "osm" ∧
    lookupA (finalize "x.osm"
      ⟨"osm", updateGenerator (ofAttrs [("generator", "osmium/1.0")])⟩
      (processEvents "full" 500
        (eventsF (.elem "osm" [("generator", "osmium/1.0")] []))
        initState)).root.attributes "generator" =
      some (producerTag ++ "; " ++
        ((lookupA (ofAttrs [("generator", "osmium/1.0")]) "generator").getD "")) :=
  ⟨(c6_root_fidelity "full" 500 "x.osm" "osm" [("generator", "osmium/1.0")] []
      (Or.inl rfl) _ rfl).1,
   (c6_root_fidelity "full" 500 "x.osm" "osm" [("generator", "osmium/1.0")] []
      (Or.inl rfl) _ rfl).2.1⟩

/-- C7: at end of input, each kind's non-empty pending buffer is flushed as
the next numbered batch (appended to that kind's write log with the current
count as its index), the three completion markers are recorded in order with
content `wrote <count> batches from <source_base>\n` where `<count>` is the
number of batches written for that kind (including zero), and the batch
files written for each kind carry exactly the contiguous indices
`0 … count−1`. -/
theorem c7_finalization (it : String) (B : Nat) (hB : 0 < B) (fname : String)
    (rootName : String) (rootAttrs : List (String × String)) (items : List Frag)
    (hroot : rootName = "osm" ∨ rootName = "osmChange")
    (hwf : wfItems it true items = true) (r : RunResult)
    (hr : batch_osm_xml_core it B fname (.elem rootName rootAttrs items) = .ok r) :
    r.completions =
      [(Kind.node, completionMessage fname (writesFor .node r.writes).length),
       (Kind.way, completionMessage fname (writesFor .way r.writes).length),
       (Kind.relation, completionMessage fname (writesFor .relation r.writes).length)] ∧
    (∀ k, (writesFor k r.writes).map (fun w => w.index) =
      List.range (writesFor k r.writes).length) ∧
    (∀ k, writesFor k r.writes =
      writesFor k (processEvents it B (eventsF (.elem rootName rootAttrs items))
        initState).writes ++
      (if (processEvents it B (eventsF (.elem rootName rootAttrs items))
          initState).currentBatches.get k = [] then []
       else [⟨k, (processEvents it B (eventsF (.elem rootName rootAttrs items))
            initState).batchCounts.get k,
          (processEvents it B (eventsF (.elem rootName rootAttrs items))
            initState).currentBatches.get k⟩])) := by
  rw [batch_osm_xml_core_ok it B fname rootName rootAttrs items hroot] at hr
  obtain rfl := Except.ok.inj hr
  obtain ⟨h1, h2, h3, h4⟩ := runLoop_inv it B hB rootName rootAttrs items hroot hwf
  obtain ⟨g1, g2, g3, g4, g5, g6, g7⟩ := finalize_inv B hB fname
    ⟨rootName, updateGenerator (ofAttrs rootAttrs)⟩
    (processEvents it B (eventsF (.elem rootName rootAttrs items)) initState)
    (fun k2 => extractL it k2 "" items) h4
  exact ⟨g6, g3, g7⟩

/-- Witness for C7 on a one-node full document at batch bound 2 (the node is
pending at EOF and is flushed as batch 0). -/
theorem c7_finalization_witness :
    (finalize "x.osm" ⟨"osm", updateGenerator (ofAttrs [])⟩
      (processEvents "full" 2
        (eventsF (.elem "osm" [] [Frag.selfClose "node" [("id", "1")]]))
        initState)).completions =
      [(Kind.node, completionMessage "x.osm" (writesFor .node (finalize "x.osm"
          ⟨"osm", updateGenerator (ofAttrs [])⟩
          (processEvents "full" 2
            (eventsF (.elem "osm" [] [Frag.selfClose "node" [("id", "1")]]))
            initState)).writes).length),
       (Kind.way, completionMessage "x.osm" (writesFor .way (finalize "x.osm"
          ⟨"osm", updateGenerator (ofAttrs [])⟩
          (processEvents "full" 2
            (eventsF (.elem "osm" [] [Frag.selfClose "node" [("id", "1")]]))
            initState)).writes).length),
       (Kind.relation, completionMessage "x.osm" (writesFor .relation (finalize "x.osm"
          ⟨"osm", updateGenerator (ofAttrs [])⟩
          (processEvents "full" 2
            (eventsF (.elem "osm" [] [Frag.selfClose "node" [("id", "1")]]))
            initState)).writes).length)] :=
  (c7_finalization "full" 2 (by norm_num) "x.osm" "osm" []
    [Frag.selfClose "node" [("id", "1")]] (Or.inl rfl) (by decide) _ rfl).1

end OsmBatchTool
